import Mathlib

/-!
Verification of the appleseed qualification-and-distribution pipeline.

Shallow embedding of the TypeScript sources:
  src/qualifier.ts  (scoring and tiering)
  src/wallet.ts     (Stacks address validation)
  src/outreach.ts   (target-repo selection, outreach batch, daily ledger in db)
  src/airdrop.ts    (payout batch)
  src/config.ts     (tier-indexed airdrop amounts)

Modelling conventions:
  - JS strings are Lean `String`; `String.prototype.includes` is re-implemented
    over `List Char` (`hasSubList`); `toLowerCase` is `String.toLower`
    (all indicator strings are ASCII).
  - Timestamps (`Date`) are `Int` milliseconds since the epoch; `new Date(x) >= y`
    becomes integer comparison.  A run receives a fixed clock value `now` and a
    fixed calendar date string `today`, matching a single sequential invocation.
  - The SQLite store is a `Db` record of lists; `UPDATE ... WHERE id = ?` becomes
    a `List.map` guarded on the id; `ORDER BY created_at DESC` is abstracted as
    the stored list order (no claim depends on a particular order).
  - External collaborators (GitHub, chain client) are oracles supplied in an
    environment record; every external call performed is recorded in a trace.
-/

namespace Appleseed

/-- Tiers, from src/types.ts `Tier = "A" | "B" | "C" | "D"`. -/
inductive Tier
  | A
  | B
  | C
  | D
deriving DecidableEq, Repr

/-- src/types.ts `OutreachStatus`. -/
inductive OutreachStatus
  | pending
  | pr_opened
  | pr_merged
  | pr_closed
  | declined
deriving DecidableEq, Repr

/-- src/types.ts `AirdropStatus`. -/
inductive AirdropStatus
  | pending
  | sent
  | confirmed
  | failed
deriving DecidableEq, Repr

/-- src/types.ts `MatchedRepo`.  `lastUpdated` is the parsed ISO timestamp in
milliseconds since the epoch. -/
structure MatchedRepo where
  name : String
  fullName : String
  url : String
  stars : Nat
  description : Option String
  language : Option String
  lastUpdated : Int
  matchedQuery : String
deriving DecidableEq, Repr

/-- src/types.ts `Prospect`.  Bookkeeping timestamps are `Int` milliseconds;
fields the verified components never read or write (email, githubId, yield,
createdAt, discoveredVia) are omitted. -/
structure Prospect where
  id : Nat
  githubUsername : String
  repos : List MatchedRepo
  score : Nat
  tier : Option Tier
  outreachStatus : OutreachStatus
  targetRepo : Option String
  prUrl : Option String
  prNumber : Option Nat
  prOpenedAt : Option Int
  stacksAddress : Option String
  addressValid : Bool
  verifiedAt : Option Int
  airdropStatus : AirdropStatus
  airdropTxid : Option String
  airdropAmountSats : Option Nat
  airdropSentAt : Option Int
  updatedAt : Int
deriving DecidableEq, Repr

/-- src/types.ts `ScoringBreakdown`. -/
structure ScoringBreakdown where
  claudeMcp : Nat
  aiAgent : Nat
  stars : Nat
  activity : Nat
  followers : Nat
  crypto : Nat
deriving DecidableEq, Repr

/-- src/types.ts `QualificationResult`. -/
structure QualificationResult where
  score : Nat
  tier : Tier
  breakdown : ScoringBreakdown
  personalizationHooks : List String
deriving DecidableEq, Repr

/-- The configuration fields consulted by the verified components
(src/types.ts `Config`; amounts in satoshis). -/
structure Config where
  maxDailyPRs : Nat
  maxDailyAirdrops : Nat
  airdropTierA : Nat
  airdropTierB : Nat
  airdropTierC : Nat
deriving DecidableEq, Repr

/-! ### String helpers (JS `String.prototype.includes`) -/

/-- `startsList pat l` is true when `pat` is an initial segment of `l`. -/
def startsList : List Char → List Char → Bool
  | [], _ => true
  | _ :: _, [] => false
  | p :: ps, c :: cs => p == c && startsList ps cs

/-- `hasSubList pat hay`: `pat` occurs contiguously inside `hay`
(JS `hay.includes(pat)`; the empty pattern always matches). -/
def hasSubList (pat : List Char) : List Char → Bool
  | [] => pat.isEmpty
  | c :: t => startsList pat (c :: t) || hasSubList pat t

/-- JS `hay.includes(pat)` on `String`. -/
def strIncludes (hay pat : String) : Bool :=
  hasSubList pat.toList hay.toList

/-! ### Qualifier (src/qualifier.ts) -/

/-- Scoring weights, src/qualifier.ts `WEIGHTS`. -/
def WEIGHTS_CLAUDE_MCP : Nat := 30

def WEIGHTS_AI_AGENT : Nat := 25

def WEIGHTS_STARS : Nat := 15

def WEIGHTS_ACTIVITY : Nat := 15

def WEIGHTS_FOLLOWERS : Nat := 10

def WEIGHTS_CRYPTO : Nat := 5

/-- src/qualifier.ts `mcpIndicators` (inside scoreClaudeMcp). -/
def mcpIndicators : List String :=
  [("mcp.json"), ("@modelcontextprotocol"), ("claude-mcp"),
   ("model-context-protocol"), ("anthropic")]

/-- One repo triggers the Claude/MCP indicator: the indicator occurs in the
lowercased query, name or description (src/qualifier.ts scoreClaudeMcp loop body). -/
def repoMatchesMcp (repo : MatchedRepo) : Bool :=
  let query := repo.matchedQuery.toLower
  let name := repo.name.toLower
  let desc := (repo.description.getD ("")).toLower
  mcpIndicators.any fun ind =>
    strIncludes query ind || strIncludes name ind || strIncludes desc ind

/-- src/qualifier.ts `scoreClaudeMcp`: full 30 points for any MCP indicator in
any repo (the source loop breaks on the first hit, which is this existence
check), else 0. -/
def scoreClaudeMcp (p : Prospect) : Nat :=
  if p.repos.any repoMatchesMcp then WEIGHTS_CLAUDE_MCP else 0

/-- src/qualifier.ts `agentIndicators`: pattern/points table. -/
def agentIndicators : List (String × Nat) :=
  [(("langchain"), 25), (("autogpt"), 25), (("crewai"), 25),
   (("agent"), 15), (("autonomous"), 10), (("tool_calling"), 15),
   (("function_call"), 15)]

/-- The lowercased `query name description` concatenation used by
scoreAiAgent and scoreCrypto (components lowercased individually). -/
def repoCombined (repo : MatchedRepo) : String :=
  repo.matchedQuery.toLower ++ (" ") ++ repo.name.toLower ++ (" ") ++
    (repo.description.getD ("")).toLower

/-- src/qualifier.ts `scoreAiAgent`: max triggered points across all repos and
patterns, capped at 25. -/
def scoreAiAgent (p : Prospect) : Nat :=
  let maxScore := p.repos.foldl
    (fun acc repo =>
      agentIndicators.foldl
        (fun acc2 pr =>
          if strIncludes (repoCombined repo) pr.1 then max acc2 pr.2 else acc2)
        acc)
    0
  min maxScore WEIGHTS_AI_AGENT

/-- Total stars across all matched repos. -/
def totalStars (p : Prospect) : Nat :=
  p.repos.foldl (fun sum repo => sum + repo.stars) 0

/-- src/qualifier.ts `scoreStars`: +1 point per 10 stars, max 15. -/
def scoreStars (p : Prospect) : Nat :=
  min (totalStars p / 10) WEIGHTS_STARS

/-- Milliseconds per day. -/
def msPerDay : Int := 24 * 60 * 60 * 1000

/-- src/qualifier.ts scoreActivity: the most recent `lastUpdated` across
matched repos (strictly-later wins, first repo wins ties). -/
def mostRecentUpdate (p : Prospect) : Option Int :=
  p.repos.foldl
    (fun acc repo =>
      match acc with
      | none => some repo.lastUpdated
      | some m => if repo.lastUpdated > m then some repo.lastUpdated else some m)
    none

/-- src/qualifier.ts `scoreActivity`: 15/10/5/0 by 30/90/180-day recency of the
most recent repo update; 0 when there is no repo. -/
def scoreActivity (now : Int) (p : Prospect) : Nat :=
  match mostRecentUpdate p with
  | none => 0
  | some m =>
    if m ≥ now - 30 * msPerDay then WEIGHTS_ACTIVITY
    else if m ≥ now - 90 * msPerDay then 10
    else if m ≥ now - 180 * msPerDay then 5
    else 0

/-- src/qualifier.ts `scoreFollowers`: placeholder, always 0. -/
def scoreFollowers (_p : Prospect) : Nat := 0

/-- src/qualifier.ts `cryptoIndicators`. -/
def cryptoIndicators : List String :=
  [("bitcoin"), ("btc"), ("ethereum"), ("eth"), ("stacks"), ("sbtc"),
   ("web3"), ("blockchain"), ("crypto"), ("defi"), ("nft"),
   ("clarity"), ("solidity"), ("rust")]

/-- src/qualifier.ts `scoreCrypto`: full 5 points if any indicator occurs in any
repo's combined text, else 0. -/
def scoreCrypto (p : Prospect) : Nat :=
  if p.repos.any (fun repo =>
      cryptoIndicators.any fun ind => strIncludes (repoCombined repo) ind)
  then WEIGHTS_CRYPTO else 0

/-- src/qualifier.ts getTier. -/
def getTier (score : Nat) : Tier :=
  if score ≥ 70 then Tier.A
  else if score ≥ 40 then Tier.B
  else if score ≥ 20 then Tier.C
  else Tier.D

/-- The framework-name loop in generatePersonalizationHooks: first repo whose
combined text mentions langchain/crewai/autogpt (in that per-repo order)
contributes one hook.  Here the concatenation is lowercased as a whole, as in
the source. -/
def frameworkHook : List MatchedRepo → Option String
  | [] => none
  | repo :: rest =>
    let combined :=
      (repo.matchedQuery ++ (" ") ++ repo.name ++ (" ") ++
        repo.description.getD ("")).toLower
    if strIncludes combined ("langchain") then some ("LangChain developer")
    else if strIncludes combined ("crewai") then some ("CrewAI builder")
    else if strIncludes combined ("autogpt") then some ("AutoGPT contributor")
    else frameworkHook rest

/-- The `reduce` picking the highest-starred repo (strictly-greater wins, so the
earliest repo wins ties); `none` on an empty list, as the JS reduce over an
empty array with `repos[0]` (undefined) as initial value. -/
def topRepo : List MatchedRepo → Option MatchedRepo
  | [] => none
  | r0 :: rest =>
    some ((r0 :: rest).foldl (fun best r => if r.stars > best.stars then r else best) r0)

/-- src/qualifier.ts generatePersonalizationHooks. -/
def generatePersonalizationHooks (p : Prospect) (b : ScoringBreakdown) :
    List String :=
  (if b.claudeMcp > 0 then [("Works with Claude MCP")] else []) ++
  (if b.aiAgent ≥ 25 then (frameworkHook p.repos).toList else []) ++
  (if b.crypto > 0 then [("Already working in crypto/blockchain")] else []) ++
  (if b.stars ≥ 10 then [toString (totalStars p) ++ ("+ stars on AI projects")]
   else []) ++
  ((topRepo p.repos).map (fun r => ("Built ") ++ r.name)).toList

/-- src/qualifier.ts qualifyProspect: breakdown, summed score, tier, hooks. -/
def qualifyProspect (now : Int) (p : Prospect) : QualificationResult :=
  let breakdown : ScoringBreakdown :=
    { claudeMcp := scoreClaudeMcp p
      aiAgent := scoreAiAgent p
      stars := scoreStars p
      activity := scoreActivity now p
      followers := scoreFollowers p
      crypto := scoreCrypto p }
  let score := breakdown.claudeMcp + breakdown.aiAgent + breakdown.stars +
    breakdown.activity + breakdown.followers + breakdown.crypto
  { score := score
    tier := getTier score
    breakdown := breakdown
    personalizationHooks := generatePersonalizationHooks p breakdown }

/-! ### Sub-score bounds -/

lemma scoreClaudeMcp_cases (p : Prospect) :
    scoreClaudeMcp p = 0 ∨ scoreClaudeMcp p = 30 := by
  unfold scoreClaudeMcp
  split
  · exact Or.inr rfl
  · exact Or.inl rfl

lemma scoreAiAgent_le (p : Prospect) : scoreAiAgent p ≤ 25 := by
  unfold scoreAiAgent
  exact Nat.min_le_right _ _

lemma scoreStars_eq (p : Prospect) : scoreStars p = min (totalStars p / 10) 15 := rfl

lemma scoreStars_le (p : Prospect) : scoreStars p ≤ 15 := Nat.min_le_right _ _

lemma scoreActivity_cases (now : Int) (p : Prospect) :
    scoreActivity now p = 0 ∨ scoreActivity now p = 5 ∨
      scoreActivity now p = 10 ∨ scoreActivity now p = 15 := by
  unfold scoreActivity
  rcases mostRecentUpdate p with _ | m
  · exact Or.inl rfl
  · simp only
    split
    · exact Or.inr (Or.inr (Or.inr rfl))
    · split
      · exact Or.inr (Or.inr (Or.inl rfl))
      · split
        · exact Or.inr (Or.inl rfl)
        · exact Or.inl rfl

lemma scoreCrypto_cases (p : Prospect) :
    scoreCrypto p = 0 ∨ scoreCrypto p = 5 := by
  unfold scoreCrypto
  split
  · exact Or.inr rfl
  · exact Or.inl rfl

/-- C3: for every prospect and clock value, `qualifyProspect` returns
`score = claudeMcp + aiAgent + stars + activity + followers + crypto`, each
sub-score within its cap (claudeMcp ∈ {0,30}; aiAgent ≤ 25;
stars = min(floor(totalStars/10), 15); activity ∈ {0,5,10,15}; followers = 0;
crypto ∈ {0,5}), the score lies in [0,100], and the tier is the pure function
of the score given by the 70/40/20 threshold table. -/
theorem qualifyProspect_score_tier_contract (now : Int) (p : Prospect) :
    (qualifyProspect now p).score =
        (qualifyProspect now p).breakdown.claudeMcp +
        (qualifyProspect now p).breakdown.aiAgent +
        (qualifyProspect now p).breakdown.stars +
        (qualifyProspect now p).breakdown.activity +
        (qualifyProspect now p).breakdown.followers +
        (qualifyProspect now p).breakdown.crypto ∧
    ((qualifyProspect now p).breakdown.claudeMcp = 0 ∨
      (qualifyProspect now p).breakdown.claudeMcp = 30) ∧
    (qualifyProspect now p).breakdown.aiAgent ≤ 25 ∧
    (qualifyProspect now p).breakdown.stars = min (totalStars p / 10) 15 ∧
    ((qualifyProspect now p).breakdown.activity = 0 ∨
      (qualifyProspect now p).breakdown.activity = 5 ∨
      (qualifyProspect now p).breakdown.activity = 10 ∨
      (qualifyProspect now p).breakdown.activity = 15) ∧
    (qualifyProspect now p).breakdown.followers = 0 ∧
    ((qualifyProspect now p).breakdown.crypto = 0 ∨
      (qualifyProspect now p).breakdown.crypto = 5) ∧
    (qualifyProspect now p).score ≤ 100 ∧
    (qualifyProspect now p).tier =
      (if (qualifyProspect now p).score ≥ 70 then Tier.A
       else if (qualifyProspect now p).score ≥ 40 then Tier.B
       else if (qualifyProspect now p).score ≥ 20 then Tier.C
       else Tier.D) := by
  refine ⟨rfl, scoreClaudeMcp_cases p, scoreAiAgent_le p, rfl,
    scoreActivity_cases now p, rfl, scoreCrypto_cases p, ?_, rfl⟩
  have h1 := scoreClaudeMcp_cases p
  have h2 := scoreAiAgent_le p
  have h3 := scoreStars_le p
  have h4 := scoreActivity_cases now p
  have h5 := scoreCrypto_cases p
  show scoreClaudeMcp p + scoreAiAgent p + scoreStars p + scoreActivity now p +
    scoreFollowers p + scoreCrypto p ≤ 100
  unfold scoreFollowers
  omega

/-- C9: a prospect with an empty matched-repo list is scored without error:
every sub-score is 0 (in particular activity, since there is no `lastUpdated`),
the score is 0, the tier is D, and no personalization hook is produced. -/
theorem qualifyProspect_empty_repos (now : Int) (p : Prospect)
    (h : p.repos = []) :
    qualifyProspect now p =
      { score := 0
        tier := Tier.D
        breakdown :=
          { claudeMcp := 0, aiAgent := 0, stars := 0, activity := 0,
            followers := 0, crypto := 0 }
        personalizationHooks := [] } := by
  unfold qualifyProspect scoreClaudeMcp scoreAiAgent scoreStars scoreActivity
    scoreFollowers scoreCrypto totalStars mostRecentUpdate
    generatePersonalizationHooks topRepo getTier
  rw [h]
  rfl

/-- A concrete prospect record with no matched repos, used as a witness. -/
def emptyRepoProspect : Prospect :=
  { id := 1
    githubUsername := "alice"
    repos := []
    score := 0
    tier := none
    outreachStatus := OutreachStatus.pending
    targetRepo := none
    prUrl := none
    prNumber := none
    prOpenedAt := none
    stacksAddress := none
    addressValid := false
    verifiedAt := none
    airdropStatus := AirdropStatus.pending
    airdropTxid := none
    airdropAmountSats := none
    airdropSentAt := none
    updatedAt := 0 }

/-- Witness for C9 at a concrete prospect. -/
theorem qualifyProspect_empty_repos_witness :
    emptyRepoProspect.repos = [] ∧
    qualifyProspect 0 emptyRepoProspect =
      { score := 0
        tier := Tier.D
        breakdown :=
          { claudeMcp := 0, aiAgent := 0, stars := 0, activity := 0,
            followers := 0, crypto := 0 }
        personalizationHooks := [] } :=
  ⟨rfl, qualifyProspect_empty_repos 0 emptyRepoProspect rfl⟩

/-! ### Address validation (src/wallet.ts) -/

/-- The regex character class `[0-9A-HJ-NP-Z]` from
src/wallet.ts `isValidStacksAddress`. -/
def c32AlphaChar (c : Char) : Bool :=
  (('0') ≤ c && c ≤ ('9')) || (('A') ≤ c && c ≤ ('H')) ||
    (('J') ≤ c && c ≤ ('N')) || (('P') ≤ c && c ≤ ('Z'))

/-- Body of the address regexes: `[0-9A-HJ-NP-Z]{38,39}` anchored to the end. -/
def matchesAddrBody (rest : List Char) : Bool :=
  (rest.length == 38 || rest.length == 39) && rest.all c32AlphaChar

/-- `/^S<p2>[0-9A-HJ-NP-Z]{38,39}$/.test(address)`. -/
def matchesPrefixed (p2 : Char) (address : String) : Bool :=
  match address.toList with
  | c0 :: c1 :: rest => c0 == ('S') && c1 == p2 && matchesAddrBody rest
  | _ => false

/-- src/wallet.ts isValidStacksAddress: the mainnet (`SP`) regex or the
testnet (`ST`) regex matches. -/
def isValidStacksAddress (address : String) : Bool :=
  matchesPrefixed ('P') address || matchesPrefixed ('T') address

/-- An `SP` address with only 38 trailing characters (40 characters total). -/
def shortSPAddr : String :=
  String.mk (('S') :: ('P') :: List.replicate 38 ('0'))

/-- C4 counterexample: the claim demands `false` for every string whose length
differs from `SP`+39 chars, but the code accepts this 40-character string
(`SP` followed by 38 allowed characters). -/
theorem isValidStacksAddress_counterexample :
    isValidStacksAddress shortSPAddr = true ∧ shortSPAddr.toList.length = 40 := by
  constructor
  · rfl
  · rfl

/-- C4 as amended: `isValidStacksAddress` returns true exactly for strings that
start with `SP` or `ST` followed by 38 or 39 characters of the class
`[0-9A-HJ-NP-Z]` (total length 40 or 41); any other prefix, any length outside
40–41, or any character outside the class yields false. -/
theorem isValidStacksAddress_characterization (s : String) :
    isValidStacksAddress s = true ↔
      ((s.toList.take 2 = [('S'), ('P')] ∨ s.toList.take 2 = [('S'), ('T')]) ∧
       (s.toList.length = 40 ∨ s.toList.length = 41) ∧
       ∀ c ∈ s.toList.drop 2, c32AlphaChar c = true) := by
  unfold isValidStacksAddress matchesPrefixed matchesAddrBody
  cases hs : s.toList with
  | nil => simp
  | cons c0 t =>
    cases t with
    | nil => simp
    | cons c1 rest =>
      have h38 : (rest.length + 1 + 1 = 40) ↔ (rest.length = 38) := by omega
      have h39 : (rest.length + 1 + 1 = 41) ↔ (rest.length = 39) := by omega
      simp only [List.take_succ_cons, List.take_zero, List.length_cons,
        List.drop_succ_cons, List.drop_zero, Bool.or_eq_true,
        Bool.and_eq_true, beq_iff_eq, List.all_eq_true, List.cons.injEq,
        List.nil_eq, and_true, h38, h39]
      tauto

/-! ### Target-repo selection (src/outreach.ts selectTargetRepo, src/github.ts parseRepoUrl) -/

/-- JS truthiness of a string: nonempty. -/
def strTruthy (s : String) : Bool := !(s == "")

/-- The comparator passed to `sort` in src/outreach.ts selectTargetRepo:
matched-query flag first, then recency when the gap exceeds 7 days, then star
count descending. -/
def repoCmp (a b : MatchedRepo) : Int :=
  let aQuery : Int := if strTruthy a.matchedQuery then 1 else 0
  let bQuery : Int := if strTruthy b.matchedQuery then 1 else 0
  if aQuery ≠ bQuery then bQuery - aQuery
  else if (a.lastUpdated - b.lastUpdated).natAbs > 7 * 24 * 60 * 60 * 1000 then
    b.lastUpdated - a.lastUpdated
  else (b.stars : Int) - (a.stars : Int)

/-- Stable insertion step for a JS-style comparator: the inserted element goes
after every element it does not strictly precede. -/
def insertCmp (cmp : MatchedRepo → MatchedRepo → Int) (x : MatchedRepo) :
    List MatchedRepo → List MatchedRepo
  | [] => [x]
  | y :: ys => if cmp x y < 0 then x :: y :: ys else y :: insertCmp cmp x ys

/-- Model of `Array.prototype.sort(cmp)`: a stable comparison sort.  For a
consistent comparator this is the sorted stable permutation `sort` produces;
the claims only exercise two-element lists, where every comparison sort
agrees. -/
def sortByCmp (cmp : MatchedRepo → MatchedRepo → Int)
    (l : List MatchedRepo) : List MatchedRepo :=
  l.foldl (fun acc x => insertCmp cmp x acc) []

/-- Split a char list at the first `/`: the `[^/]*` segment and the rest. -/
def takeSeg : List Char → List Char × List Char
  | [] => ([], [])
  | c :: t =>
    if c == ('/') then ([], c :: t)
    else
      let (s, r) := takeSeg t
      (c :: s, r)

/-- Scan for the first occurrence of `github.com/` and return what follows it
(the regex in parseRepoUrl/parsePRUrl is unanchored; restarting the search at
later occurrences after a failed tail match is not modelled — no URL in the
claims contains the marker twice). -/
def findGithubMarker : List Char → Option (List Char)
  | [] => none
  | c :: t =>
    if startsList (("github.com/").toList) (c :: t) then some ((c :: t).drop 11)
    else findGithubMarker t

/-- `replace(/\.git$/, "")`. -/
def stripDotGit (l : List Char) : List Char :=
  if startsList ((".git").toList.reverse) l.reverse then (l.reverse.drop 4).reverse
  else l

/-- Owner/repo pair returned by src/github.ts parseRepoUrl. -/
structure RepoRef where
  owner : String
  repo : String
deriving DecidableEq, Repr

/-- src/github.ts parseRepoUrl:
`url.match(/github\.com\/([^/]+)\/([^/]+)/)` with `.git` stripped from the
repo segment. -/
def parseRepoUrl (url : String) : Option RepoRef :=
  match findGithubMarker url.toList with
  | none => none
  | some rest =>
    let (seg1, r1) := takeSeg rest
    if seg1.isEmpty then none
    else
      match r1 with
      | ('/') :: r2 =>
        let (seg2, _) := takeSeg r2
        if seg2.isEmpty then none
        else some { owner := String.mk seg1, repo := String.mk (stripDotGit seg2) }
      | _ => none

/-- src/outreach.ts selectTargetRepo: sort the evidence with `repoCmp`, take
the head, parse its URL, falling back to splitting `fullName` (the empty-repos
early return coincides with the empty sorted list). -/
def selectTargetRepo (p : Prospect) : Option RepoRef :=
  match sortByCmp repoCmp p.repos with
  | [] => none
  | best :: _ =>
    match parseRepoUrl best.url with
    | some parsed => some parsed
    | none =>
      match best.fullName.splitOn ("/") with
      | [a, b] => some { owner := a, repo := b }
      | _ => none

/-- C7: with exactly two matched repos, both direct search matches, whose
`lastUpdated` differ by at most 7 days, and star counts 50 and 10, selection
does not use recency: it falls through to star count and picks the 50-star
repo (whichever position it occupies). -/
theorem selectTargetRepo_star_tiebreak
    (p : Prospect) (r1 r2 : MatchedRepo) (tgt : RepoRef)
    (hrepos : p.repos = [r1, r2])
    (hq1 : r1.matchedQuery ≠ "") (hq2 : r2.matchedQuery ≠ "")
    (hgap : (r1.lastUpdated - r2.lastUpdated).natAbs ≤ 7 * 24 * 60 * 60 * 1000)
    (hstars : (r1.stars = 50 ∧ r2.stars = 10 ∧ parseRepoUrl r1.url = some tgt) ∨
      (r1.stars = 10 ∧ r2.stars = 50 ∧ parseRepoUrl r2.url = some tgt)) :
    selectTargetRepo p = some tgt := by
  have hq1b : strTruthy r1.matchedQuery = true := by
    simp [strTruthy, hq1]
  have hq2b : strTruthy r2.matchedQuery = true := by
    simp [strTruthy, hq2]
  have hgap2 : ¬((r2.lastUpdated - r1.lastUpdated).natAbs >
      7 * 24 * 60 * 60 * 1000) := by
    omega
  have hcmp : repoCmp r2 r1 = (r1.stars : Int) - (r2.stars : Int) := by
    unfold repoCmp
    simp [hq1b, hq2b, hgap2]
  have hsort : sortByCmp repoCmp [r1, r2] =
      if repoCmp r2 r1 < 0 then [r2, r1] else [r1, r2] := by
    show insertCmp repoCmp r2 (insertCmp repoCmp r1 []) = _
    by_cases h : repoCmp r2 r1 < 0 <;> simp [insertCmp, h]
  unfold selectTargetRepo
  rw [hrepos, hsort]
  rcases hstars with ⟨h1, h2, hp⟩ | ⟨h1, h2, hp⟩
  · have hneg : ¬repoCmp r2 r1 < 0 := by
      rw [hcmp, h1, h2]
      decide
    rw [if_neg hneg]
    simp only [hp]
  · have hpos : repoCmp r2 r1 < 0 := by
      rw [hcmp, h1, h2]
      decide
    rw [if_pos hpos]
    simp only [hp]

/-- A 50-star repo updated 2 days after `toolRepo`. -/
def agentRepo : MatchedRepo :=
  { name := "agent-x"
    fullName := "alice/agent-x"
    url := "https://github.com/alice/agent-x"
    stars := 50
    description := none
    language := none
    lastUpdated := 172800000
    matchedQuery := "agent" }

/-- A 10-star repo, the more recent gap partner of `agentRepo`. -/
def toolRepo : MatchedRepo :=
  { name := "tool-y"
    fullName := "alice/tool-y"
    url := "https://github.com/alice/tool-y"
    stars := 10
    description := none
    language := none
    lastUpdated := 0
    matchedQuery := "agent" }

/-- Prospect holding exactly the two witness repos. -/
def twoRepoProspect : Prospect :=
  { emptyRepoProspect with repos := [agentRepo, toolRepo] }

/-- Witness for C7 at a concrete prospect: the 50-star repo wins although the
repos are only 2 days apart. -/
theorem selectTargetRepo_star_tiebreak_witness :
    selectTargetRepo twoRepoProspect = some { owner := "alice", repo := "agent-x" } :=
  selectTargetRepo_star_tiebreak twoRepoProspect agentRepo toolRepo
    { owner := "alice", repo := "agent-x" } rfl (by decide) (by decide)
    (by decide) (Or.inl ⟨rfl, rfl, by decide⟩)

/-! ### Persistent store (src/db.ts)

The SQLite tables become lists; `prospects` carries the order the
`ORDER BY created_at DESC` queries return. -/

/-- One `daily_limits` row. -/
structure DailyRow where
  date : String
  prsOpened : Nat
  airdropsSent : Nat
deriving DecidableEq, Repr

/-- One `activity_log` row (the free-form JSON details column is not modelled;
no claim reads it). -/
structure ActivityEntry where
  action : String
  prospectId : Option Nat
deriving DecidableEq, Repr

/-- The store. -/
structure Db where
  prospects : List Prospect
  dailyLimits : List DailyRow
  activityLog : List ActivityEntry
deriving DecidableEq, Repr

/-- `SELECT * FROM daily_limits WHERE date = ?`. -/
def findDaily (db : Db) (d : String) : Option DailyRow :=
  db.dailyLimits.find? (fun r => r.date == d)

/-- A fresh zeroed row for date `d` (the `INSERT` with column defaults). -/
def zeroRow (d : String) : DailyRow :=
  { date := d, prsOpened := 0, airdropsSent := 0 }

/-- The row `getDailyLimits` returns: today's row, created zeroed if absent. -/
def getDailyLimitsRow (db : Db) (today : String) : DailyRow :=
  (findDaily db today).getD (zeroRow today)

/-- The store after `getDailyLimits`: unchanged, or with the zeroed row
inserted when today had none. -/
def getDailyLimitsDb (db : Db) (today : String) : Db :=
  match findDaily db today with
  | some _ => db
  | none => { db with dailyLimits := db.dailyLimits ++ [zeroRow today] }

/-- src/db.ts getDailyLimits: select today's row, inserting a zeroed one
first when missing. -/
def getDailyLimits (db : Db) (today : String) : DailyRow × Db :=
  (getDailyLimitsRow db today, getDailyLimitsDb db today)

/-- The `UPDATE daily_limits SET prs_opened = prs_opened + 1 WHERE date = ?`
statement. -/
def bumpPRs (db : Db) (today : String) : Db :=
  { db with
      dailyLimits := db.dailyLimits.map fun r =>
        if r.date == today then { r with prsOpened := r.prsOpened + 1 } else r }

/-- The `UPDATE daily_limits SET airdrops_sent = airdrops_sent + 1 WHERE date = ?`
statement. -/
def bumpAirdrops (db : Db) (today : String) : Db :=
  { db with
      dailyLimits := db.dailyLimits.map fun r =>
        if r.date == today then { r with airdropsSent := r.airdropsSent + 1 } else r }

/-- src/db.ts incrementDailyPRs: ensure today's row exists, then update it. -/
def incrementDailyPRs (db : Db) (today : String) : Db :=
  bumpPRs (getDailyLimitsDb db today) today

/-- src/db.ts incrementDailyAirdrops: ensure today's row exists, then
update it. -/
def incrementDailyAirdrops (db : Db) (today : String) : Db :=
  bumpAirdrops (getDailyLimitsDb db today) today

/-- Observable counters of a date: `(prs_opened, airdrops_sent)`, `(0,0)` when
the row does not exist. -/
def dailyCounts (db : Db) (d : String) : Nat × Nat :=
  ((findDaily db d).map fun r => (r.prsOpened, r.airdropsSent)).getD (0, 0)

/-- `INSERT INTO activity_log`. -/
def logActivity (db : Db) (action : String) (prospectId : Option Nat) : Db :=
  { db with activityLog := db.activityLog ++ [{ action := action, prospectId := prospectId }] }

lemma findDaily_getDailyLimitsDb (db : Db) (d d' : String) :
    findDaily (getDailyLimitsDb db d) d' =
      if d' = d then some ((findDaily db d).getD (zeroRow d))
      else findDaily db d' := by
  unfold getDailyLimitsDb
  cases h : findDaily db d with
  | some r =>
    by_cases hd : d' = d
    · subst hd
      simp [h]
    · simp [hd]
  | none =>
    unfold findDaily at h ⊢
    dsimp only
    by_cases hd : d' = d
    · subst hd
      rw [if_pos rfl, List.find?_append, h, Option.none_or,
        List.find?_cons_of_pos]
      · rfl
      · exact beq_iff_eq.mpr rfl
    · have hz : List.find? (fun r => r.date == d') [zeroRow d] = none := by
        rw [List.find?_cons_of_neg]
        · rfl
        · exact fun hc => hd (beq_iff_eq.mp hc).symm
      rw [if_neg hd, List.find?_append, hz, Option.or_none]

lemma findDaily_mapGuard (l : List DailyRow) (d d' : String)
    (g : DailyRow → DailyRow) (hg : ∀ r, (g r).date = r.date) :
    ((l.map fun r => if r.date == d then g r else r).find? fun r => r.date == d')
      = (l.find? fun r => r.date == d').map fun r => if r.date == d then g r else r := by
  induction l with
  | nil => rfl
  | cons r t ih =>
    have hdate : (if r.date == d then g r else r).date = r.date := by
      by_cases hb : r.date == d
      · rw [if_pos hb]
        exact hg r
      · rw [if_neg hb]
    by_cases hr : r.date = d'
    · rw [List.map_cons, List.find?_cons_of_pos, List.find?_cons_of_pos]
      · rfl
      · exact beq_iff_eq.mpr hr
      · rw [hdate]
        exact beq_iff_eq.mpr hr
    · rw [List.map_cons, List.find?_cons_of_neg, List.find?_cons_of_neg, ih]
      · exact fun hc => hr (beq_iff_eq.mp hc)
      · rw [hdate]
        exact fun hc => hr (beq_iff_eq.mp hc)

lemma dailyCounts_incrementDailyPRs (db : Db) (d d' : String) :
    dailyCounts (incrementDailyPRs db d) d' =
      if d' = d then ((dailyCounts db d').1 + 1, (dailyCounts db d').2)
      else dailyCounts db d' := by
  unfold incrementDailyPRs bumpPRs dailyCounts findDaily
  dsimp only
  rw [findDaily_mapGuard (getDailyLimitsDb db d).dailyLimits d d'
    (fun r => { r with prsOpened := r.prsOpened + 1 }) (fun r => rfl)]
  have hf := findDaily_getDailyLimitsDb db d d'
  unfold findDaily at hf
  rw [hf]
  by_cases hd : d' = d
  · subst hd
    rw [if_pos rfl, if_pos rfl]
    cases h : db.dailyLimits.find? (fun r => r.date == d') with
    | none => simp [zeroRow]
    | some r =>
      have hr : r.date = d' := by
        have hp := List.find?_some h
        exact beq_iff_eq.mp hp
      simp [hr]
  · rw [if_neg hd, if_neg hd]
    cases h : db.dailyLimits.find? (fun r => r.date == d') with
    | none => simp
    | some r =>
      have hr : r.date = d' := by
        have hp := List.find?_some h
        exact beq_iff_eq.mp hp
      simp [hr, hd]

lemma dailyCounts_incrementDailyAirdrops (db : Db) (d d' : String) :
    dailyCounts (incrementDailyAirdrops db d) d' =
      if d' = d then ((dailyCounts db d').1, (dailyCounts db d').2 + 1)
      else dailyCounts db d' := by
  unfold incrementDailyAirdrops bumpAirdrops dailyCounts findDaily
  dsimp only
  rw [findDaily_mapGuard (getDailyLimitsDb db d).dailyLimits d d'
    (fun r => { r with airdropsSent := r.airdropsSent + 1 }) (fun r => rfl)]
  have hf := findDaily_getDailyLimitsDb db d d'
  unfold findDaily at hf
  rw [hf]
  by_cases hd : d' = d
  · subst hd
    rw [if_pos rfl, if_pos rfl]
    cases h : db.dailyLimits.find? (fun r => r.date == d') with
    | none => simp [zeroRow]
    | some r =>
      have hr : r.date = d' := by
        have hp := List.find?_some h
        exact beq_iff_eq.mp hp
      simp [hr]
  · rw [if_neg hd, if_neg hd]
    cases h : db.dailyLimits.find? (fun r => r.date == d') with
    | none => simp
    | some r =>
      have hr : r.date = d' := by
        have hp := List.find?_some h
        exact beq_iff_eq.mp hp
      simp [hr, hd]

/-- C8: the Daily Ledger is monotone within a date and independent across
dates: `getOrCreateToday` materialises a zeroed row without changing any
date's counters, each increment adds exactly 1 to today's corresponding
counter, no operation decreases or resets a counter, and every other date's
counters are untouched. -/
theorem dailyLedger_monotone_independent (db : Db) (d d' : String) :
    dailyCounts (getDailyLimitsDb db d) d' = dailyCounts db d' ∧
    findDaily (getDailyLimitsDb db d) d = some ((findDaily db d).getD (zeroRow d)) ∧
    getDailyLimitsRow db d = (findDaily db d).getD (zeroRow d) ∧
    dailyCounts (incrementDailyPRs db d) d' =
      (if d' = d then ((dailyCounts db d').1 + 1, (dailyCounts db d').2)
       else dailyCounts db d') ∧
    dailyCounts (incrementDailyAirdrops db d) d' =
      (if d' = d then ((dailyCounts db d').1, (dailyCounts db d').2 + 1)
       else dailyCounts db d') := by
  have hcreate : dailyCounts (getDailyLimitsDb db d) d' = dailyCounts db d' := by
    unfold dailyCounts
    rw [findDaily_getDailyLimitsDb]
    by_cases hd : d' = d
    · subst hd
      cases h : findDaily db d' <;> simp [h, zeroRow]
    · simp [hd]
  refine ⟨hcreate, ?_, rfl, dailyCounts_incrementDailyPRs db d d',
    dailyCounts_incrementDailyAirdrops db d d'⟩
  rw [findDaily_getDailyLimitsDb]
  simp

/-! ### Prospect store operations (src/db.ts) -/

/-- `SELECT * FROM prospects WHERE id = ?`. -/
def getProspectById (db : Db) (id : Nat) : Option Prospect :=
  db.prospects.find? fun p => p.id == id

/-- The optional filters of src/db.ts getProspects. -/
structure ProspectFilters where
  tier : Option Tier := none
  outreachStatus : Option OutreachStatus := none
  airdropStatus : Option AirdropStatus := none
  pendingQualification : Bool := false
  limit : Option Nat := none

/-- The WHERE clause assembled by getProspects. -/
def matchesFilters (f : ProspectFilters) (p : Prospect) : Bool :=
  (match f.tier with
   | none => true
   | some t => p.tier == some t) &&
  (match f.outreachStatus with
   | none => true
   | some s => p.outreachStatus == s) &&
  (match f.airdropStatus with
   | none => true
   | some s => p.airdropStatus == s) &&
  (!f.pendingQualification || p.tier == none)

/-- src/db.ts getProspects.  `if (filters?.limit)` means a limit of 0 is falsy
and adds no LIMIT clause. -/
def getProspects (db : Db) (f : ProspectFilters) : List Prospect :=
  let l := db.prospects.filter (matchesFilters f)
  match f.limit with
  | none => l
  | some n => if n == 0 then l else l.take n

/-- `UPDATE prospects SET ... WHERE id = ?`: apply `g` to every row whose id
matches. -/
def updById (l : List Prospect) (id : Nat) (g : Prospect → Prospect) :
    List Prospect :=
  l.map fun q => if q.id == id then g q else q

/-- src/db.ts updateProspectScore (also bumps `updated_at`). -/
def updateProspectScore (db : Db) (id : Nat) (score : Nat) (tier : Tier)
    (now : Int) : Db :=
  { db with
      prospects := updById db.prospects id fun q =>
        { q with score := score, tier := some tier, updatedAt := now } }

/-! ### Qualifier batch (src/qualifier.ts qualify) -/

/-- src/types.ts `QualifyOptions`. -/
structure QualifyOptions where
  pending : Bool := false
  prospectId : Option Nat := none
  minTier : Option Tier := none

/-- The `tierOrder` table in src/qualifier.ts qualify. -/
def tierOrder : Tier → Nat
  | Tier.A => 0
  | Tier.B => 1
  | Tier.C => 2
  | Tier.D => 3

/-- The minTier filter of the qualify loop: the freshly computed tier is
strictly below the requested one. -/
def minTierRejects (now : Int) (opts : QualifyOptions) (p : Prospect) : Bool :=
  match opts.minTier with
  | none => false
  | some mt => decide (tierOrder (qualifyProspect now p).tier > tierOrder mt)

/-- Result accumulator of the qualify loop (src/qualifier.ts tallies
`qualified`/`skipped` while mutating the store). -/
structure QualifyOutcome where
  qualified : Nat
  skipped : Nat
  db : Db
deriving DecidableEq, Repr

/-- One iteration of the qualify loop: skip an already-tiered prospect unless
an explicit prospectId was requested, apply the minTier filter without
persisting, otherwise persist score/tier and append the activity-log entry. -/
def qualifyStep (now : Int) (opts : QualifyOptions) (acc : QualifyOutcome)
    (p : Prospect) : QualifyOutcome :=
  if p.tier.isSome && opts.prospectId.isNone then
    { acc with skipped := acc.skipped + 1 }
  else if minTierRejects now opts p then
    { acc with skipped := acc.skipped + 1 }
  else
    { qualified := acc.qualified + 1
      skipped := acc.skipped
      db := logActivity
        (updateProspectScore acc.db p.id (qualifyProspect now p).score
          (qualifyProspect now p).tier now)
        ("qualify:scored") (some p.id) }

/-- The candidate selection of src/qualifier.ts qualify: the named prospect,
or the tier-less prospects in pending mode, or every prospect. -/
def qualifyCandidates (db : Db) (opts : QualifyOptions) : List Prospect :=
  match opts.prospectId with
  | some id => (getProspectById db id).toList
  | none =>
    if opts.pending then getProspects db { pendingQualification := true }
    else getProspects db {}

/-- src/qualifier.ts qualify: fold the loop body over the candidate snapshot. -/
def qualify (now : Int) (db : Db) (opts : QualifyOptions) : QualifyOutcome :=
  (qualifyCandidates db opts).foldl (qualifyStep now opts)
    { qualified := 0, skipped := 0, db := db }

/-- Whether the loop body persists this candidate. -/
def qualifyPersists (now : Int) (opts : QualifyOptions) (p : Prospect) : Bool :=
  !(p.tier.isSome && opts.prospectId.isNone) && !(minTierRejects now opts p)

lemma qualifyStep_eq (now : Int) (opts : QualifyOptions) (acc : QualifyOutcome)
    (p : Prospect) :
    qualifyStep now opts acc p =
      if qualifyPersists now opts p then
        { qualified := acc.qualified + 1
          skipped := acc.skipped
          db := logActivity
            (updateProspectScore acc.db p.id (qualifyProspect now p).score
              (qualifyProspect now p).tier now)
            ("qualify:scored") (some p.id) }
      else { acc with skipped := acc.skipped + 1 } := by
  unfold qualifyStep qualifyPersists
  by_cases h1 : (p.tier.isSome && opts.prospectId.isNone) = true
  · simp [h1]
  · by_cases h2 : minTierRejects now opts p = true
    · simp [h1, h2]
    · simp [h1, h2]

/-- Pointwise relation between the prospect rows before and after folding the
qualify loop over candidate list `cs`: ids survive, rows touched must stem
from a persisting candidate with the same id and end tiered, untouched rows
are literally equal. -/
def qfoldRel (now : Int) (opts : QualifyOptions) (cs : List Prospect)
    (a b : Prospect) : Prop :=
  b.id = a.id ∧
  ((∃ c ∈ cs, qualifyPersists now opts c = true ∧ c.id = a.id) →
    b.tier.isSome = true) ∧
  ((¬∃ c ∈ cs, qualifyPersists now opts c = true ∧ c.id = a.id) → b = a) ∧
  (b = a ∨ b.tier.isSome = true)

lemma forall₂_trans_general {α : Type} {S R T : α → α → Prop}
    (h : ∀ a b c, S a b → R b c → T a c) :
    ∀ {l m n : List α}, List.Forall₂ S l m → List.Forall₂ R m n →
      List.Forall₂ T l n := by
  intro l m n hlm
  induction hlm generalizing n with
  | nil =>
    intro hmn
    cases hmn
    exact List.Forall₂.nil
  | cons hab hrest ih =>
    intro hmn
    cases hmn with
    | cons hbc hrest2 => exact List.Forall₂.cons (h _ _ _ hab hbc) (ih hrest2)

lemma forall₂_mem_right {α : Type} {R : α → α → Prop} :
    ∀ {l m : List α}, List.Forall₂ R l m → ∀ b ∈ m, ∃ a ∈ l, R a b := by
  intro l m h
  induction h with
  | nil => intro b hb; cases hb
  | cons hab _ ih =>
    intro b hb
    cases hb with
    | head => exact ⟨_, List.mem_cons_self _ _, hab⟩
    | tail _ hb2 =>
      obtain ⟨a, ha, har⟩ := ih b hb2
      exact ⟨a, List.mem_cons_of_mem _ ha, har⟩

lemma forall₂_imp_of_mem {α : Type} {R T : α → α → Prop} :
    ∀ {l m : List α}, List.Forall₂ R l m →
      (∀ a b, a ∈ l → R a b → T a b) → List.Forall₂ T l m := by
  intro l m h
  induction h with
  | nil => intro _; exact List.Forall₂.nil
  | cons hab hrest ih =>
    intro himp
    refine List.Forall₂.cons (himp _ _ (List.mem_cons_self _ _) hab) (ih ?_)
    intro a b ha hr
    exact himp a b (List.mem_cons_of_mem _ ha) hr

lemma forall₂_self_of {α : Type} {R : α → α → Prop} (l : List α)
    (h : ∀ a ∈ l, R a a) : List.Forall₂ R l l := by
  induction l with
  | nil => exact List.Forall₂.nil
  | cons a t ih =>
    exact List.Forall₂.cons (h a (List.mem_cons_self _ _))
      (ih fun x hx => h x (List.mem_cons_of_mem _ hx))

lemma qualifyStep_rel (now : Int) (opts : QualifyOptions) (acc : QualifyOutcome)
    (c : Prospect) :
    List.Forall₂ (qfoldRel now opts [c]) acc.db.prospects
      (qualifyStep now opts acc c).db.prospects := by
  rw [qualifyStep_eq]
  by_cases hper : qualifyPersists now opts c = true
  · rw [if_pos hper]
    show List.Forall₂ _ acc.db.prospects
      (updById acc.db.prospects c.id _)
    unfold updById
    rw [List.forall₂_map_right_iff]
    refine forall₂_self_of _ fun a _ => ?_
    by_cases hid : a.id == c.id
    · have hid2 : a.id = c.id := beq_iff_eq.mp hid
      rw [if_pos hid]
      refine ⟨rfl, fun _ => rfl, fun hno => absurd ?_ hno, Or.inr rfl⟩
      exact ⟨c, List.mem_cons_self _ _, hper, hid2.symm⟩
    · rw [if_neg hid]
      refine ⟨rfl, fun hex => ?_, fun _ => rfl, Or.inl rfl⟩
      obtain ⟨c2, hc2, _, hcid⟩ := hex
      rw [List.mem_singleton] at hc2
      subst hc2
      exact absurd (beq_iff_eq.mpr hcid.symm) (by simpa using hid)
  · rw [if_neg hper]
    refine forall₂_self_of _ fun a _ => ?_
    refine ⟨rfl, fun hex => ?_, fun _ => rfl, Or.inl rfl⟩
    obtain ⟨c2, hc2, hp2, _⟩ := hex
    rw [List.mem_singleton] at hc2
    subst hc2
    exact absurd hp2 hper

lemma qfoldRel_comp (now : Int) (opts : QualifyOptions) (c : Prospect)
    (cs : List Prospect) (a b d : Prospect)
    (h1 : qfoldRel now opts [c] a b) (h2 : qfoldRel now opts cs b d) :
    qfoldRel now opts (c :: cs) a d := by
  obtain ⟨hid1, himp1, huntouched1, hmono1⟩ := h1
  obtain ⟨hid2, himp2, huntouched2, hmono2⟩ := h2
  refine ⟨hid2.trans hid1, ?_, ?_, ?_⟩
  · rintro ⟨c2, hc2, hp2, hcid2⟩
    rcases List.mem_cons.mp hc2 with hhead | htail
    · subst hhead
      have hb : b.tier.isSome = true :=
        himp1 ⟨c2, List.mem_cons_self _ _, hp2, hcid2⟩
      rcases hmono2 with hdb | hds
      · rw [hdb]; exact hb
      · exact hds
    · exact himp2 ⟨c2, htail, hp2, by rw [hid1]; exact hcid2⟩
  · intro hno
    have hnc : ¬∃ c2 ∈ [c], qualifyPersists now opts c2 = true ∧ c2.id = a.id := by
      rintro ⟨c2, hc2, hp2, hcid2⟩
      exact hno ⟨c2, by
        rw [List.mem_singleton] at hc2
        subst hc2
        exact List.mem_cons_self _ _, hp2, hcid2⟩
    have hba : b = a := huntouched1 hnc
    have hncs : ¬∃ c2 ∈ cs, qualifyPersists now opts c2 = true ∧ c2.id = b.id := by
      rintro ⟨c2, hc2, hp2, hcid2⟩
      exact hno ⟨c2, List.mem_cons_of_mem _ hc2, hp2, by rw [← hid1]; exact hcid2⟩
    rw [huntouched2 hncs, hba]
  · rcases hmono2 with hdb | hds
    · rw [hdb]; exact hmono1
    · exact Or.inr hds

lemma qualifyFold_rel (now : Int) (opts : QualifyOptions) :
    ∀ (cs : List Prospect) (acc : QualifyOutcome),
      List.Forall₂ (qfoldRel now opts cs) acc.db.prospects
        ((cs.foldl (qualifyStep now opts) acc).db.prospects) := by
  intro cs
  induction cs with
  | nil =>
    intro acc
    exact forall₂_self_of _ fun a _ =>
      ⟨rfl, fun hex => absurd hex (by simp), fun _ => rfl, Or.inl rfl⟩
  | cons c cs ih =>
    intro acc
    rw [List.foldl_cons]
    exact forall₂_trans_general (qfoldRel_comp now opts c cs)
      (qualifyStep_rel now opts acc c) (ih (qualifyStep now opts acc c))

lemma qualifyFold_db_of_no_persist (now : Int) (opts : QualifyOptions) :
    ∀ (cs : List Prospect) (acc : QualifyOutcome),
      (∀ c ∈ cs, qualifyPersists now opts c = false) →
      ((cs.foldl (qualifyStep now opts) acc).db) = acc.db := by
  intro cs
  induction cs with
  | nil => intro acc _; rfl
  | cons c cs ih =>
    intro acc h
    rw [List.foldl_cons, qualifyStep_eq,
      if_neg (by rw [h c (List.mem_cons_self _ _)]; simp)]
    exact ih _ fun x hx => h x (List.mem_cons_of_mem _ hx)

lemma qualifyCandidates_pending (db : Db) (opts : QualifyOptions)
    (h1 : opts.prospectId = none) (h2 : opts.pending = true) :
    qualifyCandidates db opts = db.prospects.filter fun p => p.tier == none := by
  unfold qualifyCandidates
  rw [h1, h2]
  show getProspects db { pendingQualification := true } = _
  unfold getProspects matchesFilters
  rfl

lemma find?_updById (l : List Prospect) (k k' : Nat) (g : Prospect → Prospect)
    (hg : ∀ q, (g q).id = q.id) :
    ((updById l k g).find? fun q => q.id == k')
      = (l.find? fun q => q.id == k').map fun q => if q.id == k then g q else q := by
  induction l with
  | nil => rfl
  | cons q t ih =>
    have hqid : (if q.id == k then g q else q).id = q.id := by
      by_cases hb : q.id == k
      · rw [if_pos hb]
        exact hg q
      · rw [if_neg hb]
    by_cases hq : q.id = k'
    · rw [updById, List.map_cons, List.find?_cons_of_pos, List.find?_cons_of_pos]
      · rfl
      · exact beq_iff_eq.mpr hq
      · rw [hqid]
        exact beq_iff_eq.mpr hq
    · rw [updById, List.map_cons, List.find?_cons_of_neg, List.find?_cons_of_neg]
      · exact ih
      · exact fun hc => hq (beq_iff_eq.mp hc)
      · rw [hqid]
        exact fun hc => hq (beq_iff_eq.mp hc)

/-- The prospect with tier already set that the counterexample and the
explicit-id witness re-qualify. -/
def tieredCProspect : Prospect :=
  { emptyRepoProspect with id := 1, tier := some Tier.C, score := 20 }

/-- Store holding only `tieredCProspect`. -/
def tieredCDb : Db :=
  { prospects := [tieredCProspect], dailyLimits := [], activityLog := [] }

/-- Options naming prospect 1 explicitly while also passing `minTier: "A"`. -/
def explicitMinTierOpts : QualifyOptions :=
  { pending := false, prospectId := some 1, minTier := some Tier.A }

/-- C5 counterexample: `qualify` invoked with an explicit prospectId does NOT
always overwrite — when a `minTier` filter is also passed and the recomputed
tier falls below it, nothing is persisted: prospect 1 keeps tier C / score 20
although the recomputation yields tier D / score 0. -/
theorem qualify_explicit_id_counterexample :
    (qualify 0 tieredCDb explicitMinTierOpts).db = tieredCDb ∧
    tieredCProspect.tier = some Tier.C ∧
    (qualifyProspect 0 tieredCProspect).tier = Tier.D := by
  refine ⟨by decide, rfl, by decide⟩

/-- C5 as amended: (1) in pending batch mode every prospect whose tier is
already non-null is left untouched (it is never a candidate); (2) running the
pending batch twice in a row with the same clock changes nothing the second
time; (3) with an explicit prospectId the score is always recomputed and, as
long as no `minTier` filter rejects the recomputed tier, score and tier are
overwritten even if a tier was already set. -/
theorem qualify_pending_skip_explicit_recompute (now : Int) (db : Db)
    (opts : QualifyOptions) :
    (opts.pending = true → opts.prospectId = none →
      (db.prospects.map Prospect.id).Nodup →
      List.Forall₂ (fun a b => a.tier.isSome = true → b = a)
        db.prospects (qualify now db opts).db.prospects) ∧
    (opts.pending = true → opts.prospectId = none →
      (qualify now (qualify now db opts).db opts).db = (qualify now db opts).db) ∧
    (∀ idq p, opts.prospectId = some idq → getProspectById db idq = some p →
      minTierRejects now opts p = false →
      getProspectById (qualify now db opts).db idq =
        some { p with
                score := (qualifyProspect now p).score
                tier := some (qualifyProspect now p).tier
                updatedAt := now }) := by
  refine ⟨?_, ?_, ?_⟩
  · intro hp hn hnodup
    have hrel := qualifyFold_rel now opts (qualifyCandidates db opts)
      { qualified := 0, skipped := 0, db := db }
    refine forall₂_imp_of_mem hrel ?_
    intro a b ha hr hatier
    obtain ⟨_, _, hunt, _⟩ := hr
    apply hunt
    rintro ⟨c, hc, _, hcid⟩
    rw [qualifyCandidates_pending db opts hn hp] at hc
    have hcmem := (List.mem_filter.mp hc).1
    have hcnone : (c.tier == none) = true := (List.mem_filter.mp hc).2
    rw [beq_iff_eq] at hcnone
    have hcne : c ≠ a := by
      intro he
      rw [he] at hcnone
      rw [hcnone] at hatier
      simp at hatier
    exact hcne (List.inj_on_of_nodup_map hnodup hcmem ha hcid)
  · intro hp hn
    show ((qualifyCandidates (qualify now db opts).db opts).foldl
      (qualifyStep now opts) _).db = _
    apply qualifyFold_db_of_no_persist
    intro q hq
    rw [qualifyCandidates_pending _ opts hn hp] at hq
    have hqmem := (List.mem_filter.mp hq).1
    have hqnone : (q.tier == none) = true := (List.mem_filter.mp hq).2
    rw [beq_iff_eq] at hqnone
    have hrel := qualifyFold_rel now opts (qualifyCandidates db opts)
      { qualified := 0, skipped := 0, db := db }
    obtain ⟨a, ha, hr⟩ := forall₂_mem_right hrel q hqmem
    obtain ⟨hid, himp, _, hmono⟩ := hr
    have hqa : q = a := by
      rcases hmono with h | h
      · exact h
      · rw [hqnone] at h
        cases h
    by_contra hper
    have hper2 : qualifyPersists now opts q = true := by
      revert hper
      cases qualifyPersists now opts q <;> simp
    have hq_in : q ∈ qualifyCandidates db opts := by
      rw [qualifyCandidates_pending db opts hn hp]
      refine List.mem_filter.mpr ⟨?_, by rw [hqnone]; rfl⟩
      rw [hqa]
      exact ha
    have hqsome : q.tier.isSome = true :=
      himp ⟨q, hq_in, hper2, by rw [hqa]⟩
    rw [hqnone] at hqsome
    cases hqsome
  · intro idq p hpid hfind hmt
    have hper : qualifyPersists now opts p = true := by
      unfold qualifyPersists
      rw [hpid, hmt]
      simp
    have hpidq : p.id = idq := by
      have hp := List.find?_some hfind
      exact beq_iff_eq.mp hp
    show getProspectById ((qualifyCandidates db opts).foldl
      (qualifyStep now opts) { qualified := 0, skipped := 0, db := db }).db idq = _
    rw [show qualifyCandidates db opts = [p] by
      unfold qualifyCandidates
      rw [hpid]
      show (getProspectById db idq).toList = _
      rw [hfind]
      rfl]
    rw [List.foldl_cons, List.foldl_nil, qualifyStep_eq, if_pos hper]
    unfold getProspectById logActivity updateProspectScore
    dsimp only
    rw [find?_updById db.prospects p.id idq
      (fun q => { q with
                    score := (qualifyProspect now p).score
                    tier := some (qualifyProspect now p).tier
                    updatedAt := now })
      (fun q => rfl)]
    show ((db.prospects.find? fun q => q.id == idq).map _) = _
    unfold getProspectById at hfind
    rw [hfind]
    show some (if p.id == p.id then _ else p) = _
    rw [if_pos (beq_iff_eq.mpr rfl)]

/-- A prospect with tier already set, id 1 (batch-mode witness). -/
def tieredBProspect : Prospect :=
  { emptyRepoProspect with id := 1, tier := some Tier.B, score := 45 }

/-- An unqualified prospect, id 2 (batch-mode witness). -/
def untieredProspect : Prospect :=
  { emptyRepoProspect with id := 2 }

/-- Store with one tiered and one untiered prospect. -/
def mixedDb : Db :=
  { prospects := [tieredBProspect, untieredProspect], dailyLimits := [], activityLog := [] }

/-- Options naming prospect 1 explicitly with no minTier. -/
def explicitIdOpts : QualifyOptions := { pending := false, prospectId := some 1 }

/-- Witness for C5: the pending batch leaves the tiered row alone and is
idempotent on a concrete store, and an explicit-id call overwrites the already
set tier C with the recomputed tier D. -/
theorem qualify_pending_skip_explicit_recompute_witness :
    List.Forall₂ (fun a b => a.tier.isSome = true → b = a)
      mixedDb.prospects (qualify 0 mixedDb { pending := true }).db.prospects ∧
    (qualify 0 (qualify 0 mixedDb { pending := true }).db { pending := true }).db
      = (qualify 0 mixedDb { pending := true }).db ∧
    getProspectById (qualify 0 tieredCDb explicitIdOpts).db 1 =
      some { tieredCProspect with
              score := (qualifyProspect 0 tieredCProspect).score
              tier := some (qualifyProspect 0 tieredCProspect).tier
              updatedAt := 0 } :=
  ⟨(qualify_pending_skip_explicit_recompute 0 mixedDb { pending := true }).1
      rfl rfl (by decide),
   (qualify_pending_skip_explicit_recompute 0 mixedDb { pending := true }).2.1
      rfl rfl,
   (qualify_pending_skip_explicit_recompute 0 tieredCDb explicitIdOpts).2.2
      1 tieredCProspect rfl (by decide) (by decide)⟩

/-! ### Distributor (src/airdrop.ts) -/

/-- src/config.ts getAirdropAmount.  The TS signature restricts the tier to
A/B/C; every call site guards `tier !== "D"`, so the D alternative below is
unreachable (given an arbitrary value to totalise the match). -/
def getAirdropAmount (config : Config) : Tier → Nat
  | Tier.A => config.airdropTierA
  | Tier.B => config.airdropTierB
  | Tier.C => config.airdropTierC
  | Tier.D => 0

/-- src/airdrop.ts MIN_TREASURY_BALANCE (satoshis). -/
def MIN_TREASURY_BALANCE : Int := 100000

/-- src/types.ts `AirdropOptions` with the defaults destructured in airdrop(). -/
structure AirdropOptions where
  pending : Bool := true
  limit : Nat := 5
  prospectId : Option Nat := none
  amount : Option Nat := none

/-- Outcome the chain client reports for one broadcast attempt: either
`sendSbtc` returns an error, or a txid together with what the bounded
confirmation polling concludes. -/
inductive BroadcastOutcome
  | err (msg : String)
  | ok (txid : String) (confirmed : Bool) (blockHeight : Option Nat)
deriving DecidableEq, Repr

/-- External-world inputs of one airdrop run: wall clock, treasury lookup
results, and the per-prospect broadcast outcome. -/
structure AirdropEnv where
  today : String
  now : Int
  treasuryAddress : String
  treasuryBalance : Int
  broadcast : Nat → BroadcastOutcome

/-- External calls the run performs (confirmation polls, which can only follow
a broadcast, are not separately traced). -/
inductive ExtCall
  | walletAddress
  | balanceFetch (address : String)
  | broadcast (prospectId : Nat) (recipient : String) (amountSats : Nat)
  | prComment (prospectId : Nat)
deriving DecidableEq, Repr

/-- src/types.ts `AirdropTransaction` (timestamps as `Int`). -/
structure AirdropTransaction where
  prospectId : Nat
  recipient : String
  amountSats : Nat
  memo : String
  txid : Option String
  status : AirdropStatus
  broadcastAt : Option Int
  confirmedAt : Option Int
  blockHeight : Option Nat
deriving DecidableEq, Repr

/-- src/db.ts updateProspectAirdrop: status always written, the other columns
via `COALESCE(new, old)`. -/
structure AirdropUpdate where
  airdropStatus : AirdropStatus
  airdropTxid : Option String := none
  airdropAmountSats : Option Nat := none
  airdropSentAt : Option Int := none

/-- Apply an `AirdropUpdate` row mutation (also bumps `updated_at`). -/
def updateProspectAirdrop (db : Db) (id : Nat) (u : AirdropUpdate) (now : Int) :
    Db :=
  { db with
      prospects := updById db.prospects id fun q =>
        { q with
            airdropStatus := u.airdropStatus
            airdropTxid := u.airdropTxid.or q.airdropTxid
            airdropAmountSats := u.airdropAmountSats.or q.airdropAmountSats
            airdropSentAt := u.airdropSentAt.or q.airdropSentAt
            updatedAt := now } }

/-- Maximal run of digits. -/
def takeDigits : List Char → List Char × List Char
  | [] => ([], [])
  | c :: t =>
    if c.isDigit then
      let (s, r) := takeDigits t
      (c :: s, r)
    else ([], c :: t)

/-- Decimal value of a digit run (the `parseInt` of the captured group). -/
def digitsToNat (l : List Char) : Nat :=
  l.foldl (fun acc c => acc * 10 + (c.toNat - 48)) 0

/-- Owner/repo/number triple returned by src/github.ts parsePRUrl. -/
structure PRRef where
  owner : String
  repo : String
  prNumber : Nat
deriving DecidableEq, Repr

/-- src/github.ts parsePRUrl:
`url.match(/github\.com\/([^/]+)\/([^/]+)\/pull\/(\d+)/)`. -/
def parsePRUrl (url : String) : Option PRRef :=
  match findGithubMarker url.toList with
  | none => none
  | some rest =>
    let (seg1, r1) := takeSeg rest
    if seg1.isEmpty then none
    else
      match r1 with
      | ('/') :: r2 =>
        let (seg2, r3) := takeSeg r2
        if seg2.isEmpty then none
        else
          match r3 with
          | ('/') :: r4 =>
            if startsList (("pull/").toList) r4 then
              let (ds, _) := takeDigits (r4.drop 5)
              if ds.isEmpty then none
              else some { owner := String.mk seg1, repo := String.mk seg2,
                          prNumber := digitsToNat ds }
            else none
          | _ => none
      | _ => none

/-- JS truthiness of an optional string column (null and `""` are falsy). -/
def jsStrOptTruthy : Option String → Bool
  | none => false
  | some s => !(s == "")

/-- The best-effort PR comment in processAirdrop: posted only when the
prospect has a PR URL that parses (posting errors are swallowed, so the trace
entry is the whole observable effect). -/
def commentCalls (p : Prospect) : List ExtCall :=
  match p.prUrl with
  | none => []
  | some url =>
    if url == "" then []
    else
      match parsePRUrl url with
      | none => []
      | some _ => [ExtCall.prComment p.id]

/-- src/airdrop.ts processAirdrop: broadcast, then on success persist `sent`
and poll for confirmation, upgrading to `confirmed`; on broadcast failure
persist `failed`.  Returns the transaction record, the mutated store, and the
external calls performed. -/
def processAirdrop (db : Db) (p : Prospect) (amount : Nat) (env : AirdropEnv) :
    AirdropTransaction × Db × List ExtCall :=
  let memo := "Appleseed airdrop - welcome to Bitcoin agents!"
  let recipient := p.stacksAddress.getD ("")
  match env.broadcast p.id with
  | BroadcastOutcome.err _ =>
    (⟨p.id, recipient, amount, memo, none, AirdropStatus.failed, none, none, none⟩,
     logActivity
       (updateProspectAirdrop db p.id { airdropStatus := AirdropStatus.failed } env.now)
       ("airdrop:failed") (some p.id),
     ExtCall.broadcast p.id recipient amount :: commentCalls p)
  | BroadcastOutcome.ok txid conf bh =>
    let db1 := updateProspectAirdrop db p.id
      { airdropStatus := AirdropStatus.sent
        airdropTxid := some txid
        airdropAmountSats := some amount
        airdropSentAt := some env.now } env.now
    if conf then
      (⟨p.id, recipient, amount, memo, some txid, AirdropStatus.confirmed,
        some env.now, some env.now, bh⟩,
       logActivity
         (updateProspectAirdrop db1 p.id { airdropStatus := AirdropStatus.confirmed } env.now)
         ("airdrop:confirmed") (some p.id),
       ExtCall.broadcast p.id recipient amount :: commentCalls p)
    else
      (⟨p.id, recipient, amount, memo, some txid, AirdropStatus.sent,
        some env.now, none, bh⟩,
       db1,
       [ExtCall.broadcast p.id recipient amount])

/-- The amount determination in the airdrop loop: explicit override if truthy,
else the tier-indexed amount for non-D tiers, else the tier-C default (JS
number truthiness: 0 behaves like absent). -/
def determineAmount (cfg : Config) (overrideAmount : Option Nat) (p : Prospect) :
    Nat :=
  let a0 : Nat := overrideAmount.getD 0
  let a1 : Nat :=
    if a0 == 0 then
      match p.tier with
      | some t => if t != Tier.D then getAirdropAmount cfg t else 0
      | none => 0
    else a0
  if a1 == 0 then cfg.airdropTierC else a1

/-- Result of one airdrop run: tallies, transaction list, mutated store, call
trace. -/
structure AirdropResult where
  sent : Nat
  confirmed : Nat
  failed : Nat
  skipped : Nat
  transactions : List AirdropTransaction
  db : Db
  calls : List ExtCall
deriving DecidableEq, Repr

/-- One iteration of the airdrop loop (src/airdrop.ts lines 375-428): the
per-candidate validity, status and headroom checks skip; otherwise the
transfer is processed, tallied, and the daily counter incremented for `sent`
or `confirmed` outcomes. -/
def airdropStep (cfg : Config) (env : AirdropEnv) (overrideAmount : Option Nat)
    (acc : AirdropResult) (p : Prospect) : AirdropResult :=
  if !jsStrOptTruthy p.stacksAddress || !p.addressValid then
    { acc with skipped := acc.skipped + 1 }
  else if p.airdropStatus != AirdropStatus.pending then
    { acc with skipped := acc.skipped + 1 }
  else
    let amount := determineAmount cfg overrideAmount p
    if env.treasuryBalance - (amount : Int) < MIN_TREASURY_BALANCE then
      { acc with skipped := acc.skipped + 1 }
    else
      match processAirdrop acc.db p amount env with
      | (tx, db2, calls2) =>
        if tx.status == AirdropStatus.confirmed then
          { sent := acc.sent + 1
            confirmed := acc.confirmed + 1
            failed := acc.failed
            skipped := acc.skipped
            transactions := acc.transactions ++ [tx]
            db := incrementDailyAirdrops db2 env.today
            calls := acc.calls ++ calls2 }
        else if tx.status == AirdropStatus.sent then
          { acc with
              sent := acc.sent + 1
              transactions := acc.transactions ++ [tx]
              db := incrementDailyAirdrops db2 env.today
              calls := acc.calls ++ calls2 }
        else
          { acc with
              failed := acc.failed + 1
              transactions := acc.transactions ++ [tx]
              db := db2
              calls := acc.calls ++ calls2 }

/-- Candidate selection of src/airdrop.ts (lines 349-361): the named prospect,
or all `pending`-payout prospects with a valid, present address. -/
def airdropCandidates (db : Db) (opts : AirdropOptions) : List Prospect :=
  match opts.prospectId with
  | some id => (getProspectById db id).toList
  | none =>
    if opts.pending then
      (getProspects db { airdropStatus := some AirdropStatus.pending }).filter
        fun p => p.addressValid && jsStrOptTruthy p.stacksAddress
    else []

/-- src/airdrop.ts airdrop(): daily-cap guard, treasury-floor guard, candidate
slice to the effective limit, then the per-candidate loop. -/
def airdrop (db : Db) (opts : AirdropOptions) (cfg : Config) (env : AirdropEnv) :
    AirdropResult :=
  if cfg.maxDailyAirdrops ≤ (getDailyLimitsRow db env.today).airdropsSent then
    { sent := 0, confirmed := 0, failed := 0, skipped := 0, transactions := [],
      db := getDailyLimitsDb db env.today, calls := [] }
  else if env.treasuryBalance < MIN_TREASURY_BALANCE then
    { sent := 0, confirmed := 0, failed := 0, skipped := 0, transactions := [],
      db := getDailyLimitsDb db env.today,
      calls := [ExtCall.walletAddress, ExtCall.balanceFetch env.treasuryAddress] }
  else
    ((airdropCandidates (getDailyLimitsDb db env.today) opts).take
        (min opts.limit
          (cfg.maxDailyAirdrops - (getDailyLimitsRow db env.today).airdropsSent))).foldl
      (airdropStep cfg env opts.amount)
      { sent := 0, confirmed := 0, failed := 0, skipped := 0, transactions := [],
        db := getDailyLimitsDb db env.today,
        calls := [ExtCall.walletAddress, ExtCall.balanceFetch env.treasuryAddress] }

lemma getDailyLimitsRow_counts (db : Db) (d : String) :
    (getDailyLimitsRow db d).prsOpened = (dailyCounts db d).1 ∧
    (getDailyLimitsRow db d).airdropsSent = (dailyCounts db d).2 := by
  unfold getDailyLimitsRow dailyCounts
  cases findDaily db d <;> exact ⟨rfl, rfl⟩

lemma getDailyLimitsDb_prospects (db : Db) (d : String) :
    (getDailyLimitsDb db d).prospects = db.prospects := by
  unfold getDailyLimitsDb
  cases findDaily db d <;> rfl

lemma getDailyLimitsDb_activityLog (db : Db) (d : String) :
    (getDailyLimitsDb db d).activityLog = db.activityLog := by
  unfold getDailyLimitsDb
  cases findDaily db d <;> rfl

lemma incrementDailyAirdrops_prospects (db : Db) (d : String) :
    (incrementDailyAirdrops db d).prospects = db.prospects := by
  unfold incrementDailyAirdrops bumpAirdrops
  dsimp only
  exact getDailyLimitsDb_prospects db d

lemma find?_updById_ne (l : List Prospect) (k k' : Nat) (g : Prospect → Prospect)
    (hg : ∀ q, (g q).id = q.id) (hne : k ≠ k') :
    ((updById l k g).find? fun q => q.id == k') = l.find? fun q => q.id == k' := by
  rw [find?_updById l k k' g hg]
  cases h : l.find? (fun q => q.id == k') with
  | none => rfl
  | some q =>
    have hq : q.id = k' := by
      have hp := List.find?_some h
      exact beq_iff_eq.mp hp
    show some (if q.id == k then g q else q) = some q
    rw [if_neg]
    exact fun hc => hne ((beq_iff_eq.mp hc).symm.trans hq)

lemma updateProspectAirdrop_find?_ne (db : Db) (pid : Nat) (u : AirdropUpdate)
    (now : Int) (k : Nat) (h : pid ≠ k) :
    ((updateProspectAirdrop db pid u now).prospects.find? fun q => q.id == k)
      = db.prospects.find? fun q => q.id == k := by
  unfold updateProspectAirdrop
  dsimp only
  exact find?_updById_ne _ _ _ _ (fun q => rfl) h

lemma processAirdrop_find?_ne (db : Db) (p : Prospect) (amount : Nat)
    (env : AirdropEnv) (k : Nat) (h : p.id ≠ k) :
    ((processAirdrop db p amount env).2.1.prospects.find? fun q => q.id == k)
      = db.prospects.find? fun q => q.id == k := by
  unfold processAirdrop
  cases env.broadcast p.id with
  | err m =>
    dsimp only
    exact updateProspectAirdrop_find?_ne db p.id _ env.now k h
  | ok txid conf bh =>
    dsimp only
    by_cases hc : conf = true
    · rw [if_pos hc]
      dsimp only
      rw [show ∀ d : Db, ∀ a pid, (logActivity d a pid).prospects = d.prospects
          from fun _ _ _ => rfl]
      rw [updateProspectAirdrop_find?_ne _ p.id _ env.now k h]
      exact updateProspectAirdrop_find?_ne db p.id _ env.now k h
    · rw [if_neg hc]
      dsimp only
      exact updateProspectAirdrop_find?_ne db p.id _ env.now k h

lemma processAirdrop_dailyLimits (db : Db) (p : Prospect) (amount : Nat)
    (env : AirdropEnv) :
    (processAirdrop db p amount env).2.1.dailyLimits = db.dailyLimits := by
  unfold processAirdrop
  cases env.broadcast p.id with
  | err m => rfl
  | ok txid conf bh =>
    dsimp only
    by_cases hc : conf = true
    · rw [if_pos hc]
      rfl
    · rw [if_neg hc]
      rfl

lemma commentCalls_eq (p : Prospect) :
    ∀ e ∈ commentCalls p, e = ExtCall.prComment p.id := by
  intro e he
  unfold commentCalls at he
  cases hp : p.prUrl with
  | none =>
    rw [hp] at he
    simp at he
  | some url =>
    rw [hp] at he
    dsimp only at he
    by_cases hu : (url == "") = true
    · rw [if_pos hu] at he
      simp at he
    · rw [if_neg hu] at he
      cases hr : parsePRUrl url with
      | none =>
        rw [hr] at he
        simp at he
      | some pr =>
        rw [hr] at he
        simpa using he

lemma processAirdrop_calls (db : Db) (p : Prospect) (amount : Nat)
    (env : AirdropEnv) :
    ∀ e ∈ (processAirdrop db p amount env).2.2,
      (∃ r a, e = ExtCall.broadcast p.id r a) ∨ e = ExtCall.prComment p.id := by
  intro e he
  unfold processAirdrop at he
  cases hb : env.broadcast p.id with
  | err m =>
    rw [hb] at he
    dsimp only at he
    rcases List.mem_cons.mp he with hh | ht
    · exact Or.inl ⟨_, _, hh⟩
    · exact Or.inr (commentCalls_eq p e ht)
  | ok txid conf bh =>
    rw [hb] at he
    dsimp only at he
    by_cases hc : conf = true
    · rw [if_pos hc] at he
      dsimp only at he
      rcases List.mem_cons.mp he with hh | ht
      · exact Or.inl ⟨_, _, hh⟩
      · exact Or.inr (commentCalls_eq p e ht)
    · rw [if_neg hc] at he
      dsimp only at he
      rcases List.mem_cons.mp he with hh | ht
      · exact Or.inl ⟨_, _, hh⟩
      · cases ht

lemma airdropStep_skip_of_not_pending (cfg : Config) (env : AirdropEnv)
    (oa : Option Nat) (acc : AirdropResult) (p : Prospect)
    (h : p.airdropStatus ≠ AirdropStatus.pending) :
    airdropStep cfg env oa acc p = { acc with skipped := acc.skipped + 1 } := by
  unfold airdropStep
  by_cases h1 : (!jsStrOptTruthy p.stacksAddress || !p.addressValid) = true
  · rw [if_pos h1]
  · rw [if_neg h1, if_pos (bne_iff_ne.mpr h)]

lemma find?_of_nodup_mem (l : List Prospect) (p : Prospect)
    (hn : (l.map Prospect.id).Nodup) (hp : p ∈ l) :
    (l.find? fun q => q.id == p.id) = some p := by
  induction l with
  | nil => cases hp
  | cons a t ih =>
    rw [List.map_cons, List.nodup_cons] at hn
    rcases List.mem_cons.mp hp with rfl | hpt
    · rw [List.find?_cons_of_pos]
      exact beq_iff_eq.mpr rfl
    · rw [List.find?_cons_of_neg, ih hn.2 hpt]
      intro hc
      exact hn.1 ((beq_iff_eq.mp hc) ▸ List.mem_map_of_mem Prospect.id hpt)

lemma airdropStep_find?_ne (cfg : Config) (env : AirdropEnv) (oa : Option Nat)
    (acc : AirdropResult) (p : Prospect) (k : Nat) (h : p.id ≠ k) :
    ((airdropStep cfg env oa acc p).db.prospects.find? fun q => q.id == k)
      = (acc.db.prospects.find? fun q => q.id == k) ∧
    ∀ r a, ExtCall.broadcast k r a ∈ (airdropStep cfg env oa acc p).calls →
      ExtCall.broadcast k r a ∈ acc.calls := by
  unfold airdropStep
  by_cases h1 : (!jsStrOptTruthy p.stacksAddress || !p.addressValid) = true
  · rw [if_pos h1]
    exact ⟨rfl, fun r a hm => hm⟩
  · rw [if_neg h1]
    by_cases h2 : (p.airdropStatus != AirdropStatus.pending) = true
    · rw [if_pos h2]
      exact ⟨rfl, fun r a hm => hm⟩
    · rw [if_neg h2]
      by_cases h3 : env.treasuryBalance - ((determineAmount cfg oa p : Nat) : Int)
          < MIN_TREASURY_BALANCE
      · rw [if_pos h3]
        exact ⟨rfl, fun r a hm => hm⟩
      · rw [if_neg h3]
        rcases hpa : processAirdrop acc.db p (determineAmount cfg oa p) env with
          ⟨tx, db2, calls2⟩
        dsimp only
        have hfind : (db2.prospects.find? fun q => q.id == k)
            = acc.db.prospects.find? fun q => q.id == k := by
          have hx := processAirdrop_find?_ne acc.db p (determineAmount cfg oa p) env k h
          rw [hpa] at hx
          exact hx
        have hcalls2 : ∀ r a, ExtCall.broadcast k r a ∈ calls2 → False := by
          intro r a hm
          have hx := processAirdrop_calls acc.db p (determineAmount cfg oa p) env
            (ExtCall.broadcast k r a) (by rw [hpa]; exact hm)
          rcases hx with ⟨r2, a2, heq⟩ | heq
          · injection heq with hk _ _
            exact h hk.symm
          · exact ExtCall.noConfusion heq
        have hkeep : ∀ dbx : Db, (dbx.prospects.find? fun q => q.id == k)
              = (db2.prospects.find? fun q => q.id == k) →
            ((dbx.prospects.find? fun q => q.id == k)
              = acc.db.prospects.find? fun q => q.id == k) := by
          intro dbx hdx
          rw [hdx]
          exact hfind
        have happend : ∀ r a, ExtCall.broadcast k r a ∈ acc.calls ++ calls2 →
            ExtCall.broadcast k r a ∈ acc.calls := by
          intro r a hm
          rcases List.mem_append.mp hm with hi | hi
          · exact hi
          · exact (hcalls2 r a hi).elim
        by_cases hcf : (tx.status == AirdropStatus.confirmed) = true
        · rw [if_pos hcf]
          dsimp only
          exact ⟨hkeep _ (by
            rw [incrementDailyAirdrops_prospects db2 env.today]), happend⟩
        · rw [if_neg hcf]
          by_cases hsn : (tx.status == AirdropStatus.sent) = true
          · rw [if_pos hsn]
            dsimp only
            exact ⟨hkeep _ (by
              rw [incrementDailyAirdrops_prospects db2 env.today]), happend⟩
          · rw [if_neg hsn]
            dsimp only
            exact ⟨hfind, happend⟩

lemma airdropFold_untouched (cfg : Config) (env : AirdropEnv) (oa : Option Nat)
    (k : Nat) :
    ∀ (cs : List Prospect) (acc : AirdropResult),
      (∀ c ∈ cs, c.id ≠ k ∨ c.airdropStatus ≠ AirdropStatus.pending) →
      (((cs.foldl (airdropStep cfg env oa) acc).db.prospects.find?
          fun q => q.id == k)
        = (acc.db.prospects.find? fun q => q.id == k)) ∧
      ∀ r a, ExtCall.broadcast k r a ∈ (cs.foldl (airdropStep cfg env oa) acc).calls →
        ExtCall.broadcast k r a ∈ acc.calls := by
  intro cs
  induction cs with
  | nil => intro acc _; exact ⟨rfl, fun r a hm => hm⟩
  | cons c t ih =>
    intro acc hc
    rw [List.foldl_cons]
    have hstep : (((airdropStep cfg env oa acc c).db.prospects.find?
          fun q => q.id == k) = (acc.db.prospects.find? fun q => q.id == k)) ∧
        ∀ r a, ExtCall.broadcast k r a ∈ (airdropStep cfg env oa acc c).calls →
          ExtCall.broadcast k r a ∈ acc.calls := by
      rcases hc c (List.mem_cons_self _ _) with hid | hnp
      · exact airdropStep_find?_ne cfg env oa acc c k hid
      · rw [airdropStep_skip_of_not_pending cfg env oa acc c hnp]
        exact ⟨rfl, fun r a hm => hm⟩
    have hrest := ih (airdropStep cfg env oa acc c)
      fun x hx => hc x (List.mem_cons_of_mem _ hx)
    exact ⟨hrest.1.trans hstep.1, fun r a hm => hstep.2 r a (hrest.2 r a hm)⟩

lemma airdropCandidates_mem (db : Db) (opts : AirdropOptions) :
    ∀ c ∈ airdropCandidates db opts,
      c ∈ db.prospects ∧
      (opts.prospectId = none → c.airdropStatus = AirdropStatus.pending) := by
  intro c hc
  unfold airdropCandidates at hc
  cases hpid : opts.prospectId with
  | some j =>
    rw [hpid] at hc
    dsimp only at hc
    cases hfj : getProspectById db j with
    | none =>
      rw [hfj] at hc
      cases hc
    | some q =>
      rw [hfj] at hc
      have hcq : c = q := by simpa using hc
      subst hcq
      exact ⟨List.mem_of_find?_eq_some hfj, fun hn => Option.noConfusion hn⟩
  | none =>
    rw [hpid] at hc
    dsimp only at hc
    by_cases hp : opts.pending = true
    · rw [if_pos hp] at hc
      have hc1 := (List.mem_filter.mp hc).1
      have hgp : getProspects db { airdropStatus := some AirdropStatus.pending }
          = db.prospects.filter
              (matchesFilters { airdropStatus := some AirdropStatus.pending }) := rfl
      rw [hgp] at hc1
      have hmem := (List.mem_filter.mp hc1).1
      have hmf := (List.mem_filter.mp hc1).2
      refine ⟨hmem, fun _ => ?_⟩
      simp only [matchesFilters, Bool.and_eq_true, beq_iff_eq] at hmf
      exact hmf.1.2
    · have hp2 : opts.pending = false := by
        revert hp
        cases opts.pending <;> simp
      rw [hp2] at hc
      simp at hc

/-- C1: a prospect whose payout status is `sent`, `confirmed` or `failed`
(anything but `pending`) is never paid again by a Distributor run: no transfer
is broadcast for it, its row — payout fields included — is byte-for-byte
unchanged, in pending batch mode it is excluded from the candidate set, and
when it is named explicitly by prospectId (with the batch guards passing and a
positive limit) the per-candidate status check skips it, counting it skipped
with no transaction attempted. -/
theorem airdrop_no_double_payout (db : Db) (opts : AirdropOptions)
    (cfg : Config) (env : AirdropEnv) (p : Prospect)
    (hids : (db.prospects.map Prospect.id).Nodup)
    (hmem : p ∈ db.prospects)
    (hstatus : p.airdropStatus ≠ AirdropStatus.pending) :
    (∀ r a, ExtCall.broadcast p.id r a ∉ (airdrop db opts cfg env).calls) ∧
    getProspectById (airdrop db opts cfg env).db p.id = some p ∧
    (opts.prospectId = none → p ∉ airdropCandidates db opts) ∧
    (opts.prospectId = some p.id →
      (dailyCounts db env.today).2 < cfg.maxDailyAirdrops →
      ¬env.treasuryBalance < MIN_TREASURY_BALANCE →
      1 ≤ opts.limit →
      (airdrop db opts cfg env).skipped = 1 ∧
      (airdrop db opts cfg env).sent = 0 ∧
      (airdrop db opts cfg env).confirmed = 0 ∧
      (airdrop db opts cfg env).failed = 0 ∧
      (airdrop db opts cfg env).transactions = []) := by
  have hfindp : (db.prospects.find? fun q => q.id == p.id) = some p :=
    find?_of_nodup_mem db.prospects p hids hmem
  have hnot_in : opts.prospectId = none → p ∉ airdropCandidates db opts := by
    intro hn hpin
    have hx := (airdropCandidates_mem db opts p hpin).2 hn
    exact hstatus hx
  unfold airdrop
  by_cases hcap : cfg.maxDailyAirdrops ≤ (getDailyLimitsRow db env.today).airdropsSent
  · rw [if_pos hcap]
    refine ⟨(by intro r a hm; cases hm), ?_, hnot_in, ?_⟩
    · show ((getDailyLimitsDb db env.today).prospects.find? fun q => q.id == p.id)
        = some p
      rw [getDailyLimitsDb_prospects]
      exact hfindp
    · intro _ hcnt _ _
      rw [(getDailyLimitsRow_counts db env.today).2] at hcap
      omega
  · rw [if_neg hcap]
    by_cases hbal : env.treasuryBalance < MIN_TREASURY_BALANCE
    · rw [if_pos hbal]
      refine ⟨(by intro r a hm; simp at hm), ?_, hnot_in, ?_⟩
      · show ((getDailyLimitsDb db env.today).prospects.find? fun q => q.id == p.id)
          = some p
        rw [getDailyLimitsDb_prospects]
        exact hfindp
      · intro _ _ hb _
        exact absurd hbal hb
    · rw [if_neg hbal]
      have hcs : ∀ c ∈ (airdropCandidates (getDailyLimitsDb db env.today) opts).take
          (min opts.limit
            (cfg.maxDailyAirdrops - (getDailyLimitsRow db env.today).airdropsSent)),
          c.id ≠ p.id ∨ c.airdropStatus ≠ AirdropStatus.pending := by
        intro c hc
        have hc2 := List.take_subset _ _ hc
        have hc3 := (airdropCandidates_mem _ opts c hc2).1
        rw [getDailyLimitsDb_prospects] at hc3
        by_cases hid : c.id = p.id
        · right
          have hcp : c = p := List.inj_on_of_nodup_map hids hc3 hmem hid
          rw [hcp]
          exact hstatus
        · exact Or.inl hid
      have hfold := airdropFold_untouched cfg env opts.amount p.id
        ((airdropCandidates (getDailyLimitsDb db env.today) opts).take
          (min opts.limit
            (cfg.maxDailyAirdrops - (getDailyLimitsRow db env.today).airdropsSent)))
        { sent := 0, confirmed := 0, failed := 0, skipped := 0, transactions := [],
          db := getDailyLimitsDb db env.today,
          calls := [ExtCall.walletAddress, ExtCall.balanceFetch env.treasuryAddress] }
        hcs
      refine ⟨?_, ?_, hnot_in, ?_⟩
      · intro r a hm
        have hx := hfold.2 r a hm
        simp at hx
      · show (List.find? _ _) = some p
        rw [hfold.1]
        show ((getDailyLimitsDb db env.today).prospects.find? fun q => q.id == p.id)
          = some p
        rw [getDailyLimitsDb_prospects]
        exact hfindp
      · intro hpid hcnt _ hlim
        have hfind0 : getProspectById (getDailyLimitsDb db env.today) p.id = some p := by
          unfold getProspectById
          rw [getDailyLimitsDb_prospects]
          exact hfindp
        have hcands : airdropCandidates (getDailyLimitsDb db env.today) opts = [p] := by
          unfold airdropCandidates
          rw [hpid]
          dsimp only
          rw [hfind0]
          rfl
        have heff : 1 ≤ min opts.limit
            (cfg.maxDailyAirdrops - (getDailyLimitsRow db env.today).airdropsSent) := by
          rw [(getDailyLimitsRow_counts db env.today).2] at hcap ⊢
          omega
        have htake : (airdropCandidates (getDailyLimitsDb db env.today) opts).take
            (min opts.limit
              (cfg.maxDailyAirdrops - (getDailyLimitsRow db env.today).airdropsSent))
            = [p] := by
          rw [hcands]
          exact List.take_of_length_le (by simpa using heff)
        rw [htake, List.foldl_cons, List.foldl_nil,
          airdropStep_skip_of_not_pending cfg env opts.amount _ p hstatus]
        exact ⟨rfl, rfl, rfl, rfl, rfl⟩

/-- C2: when the daily payout counter has already reached maxDailyAirdrops,
the whole batch aborts up front: the result is exactly
{sent:0, confirmed:0, failed:0, skipped:0} with no transactions, no external
call is made (empty call trace — in particular no wallet-address derivation,
balance fetch or broadcast), and neither any prospect row, the activity log,
nor any date's ledger counters change. -/
theorem airdrop_cap_aborts_batch (db : Db) (opts : AirdropOptions)
    (cfg : Config) (env : AirdropEnv)
    (hcap : cfg.maxDailyAirdrops ≤ (dailyCounts db env.today).2) :
    (airdrop db opts cfg env).sent = 0 ∧
    (airdrop db opts cfg env).confirmed = 0 ∧
    (airdrop db opts cfg env).failed = 0 ∧
    (airdrop db opts cfg env).skipped = 0 ∧
    (airdrop db opts cfg env).transactions = [] ∧
    (airdrop db opts cfg env).calls = [] ∧
    (airdrop db opts cfg env).db.prospects = db.prospects ∧
    (airdrop db opts cfg env).db.activityLog = db.activityLog ∧
    ∀ d, dailyCounts (airdrop db opts cfg env).db d = dailyCounts db d := by
  have hrow : cfg.maxDailyAirdrops ≤ (getDailyLimitsRow db env.today).airdropsSent := by
    rw [(getDailyLimitsRow_counts db env.today).2]
    exact hcap
  unfold airdrop
  rw [if_pos hrow]
  exact ⟨rfl, rfl, rfl, rfl, rfl, rfl,
    getDailyLimitsDb_prospects db env.today,
    getDailyLimitsDb_activityLog db env.today,
    fun d => (dailyLedger_monotone_independent db env.today d).1⟩

/-- Configuration used by the concrete airdrop runs. -/
def smallCfg : Config :=
  { maxDailyPRs := 50
    maxDailyAirdrops := 5
    airdropTierA := 10000
    airdropTierB := 5000
    airdropTierC := 2500 }

/-- A store whose ledger already shows 5 payouts sent today. -/
def cappedLedgerDb : Db :=
  { prospects := []
    dailyLimits := [{ date := "2026-01-01", prsOpened := 0, airdropsSent := 5 }]
    activityLog := [] }

/-- Environment for the concrete airdrop runs. -/
def plainEnv : AirdropEnv :=
  { today := "2026-01-01"
    now := 0
    treasuryAddress := "SPTREASURY"
    treasuryBalance := 1000000
    broadcast := fun _ => BroadcastOutcome.err ("node down") }

/-- Default airdrop options. -/
def defaultAirdropOpts : AirdropOptions := {}

/-- Witness for C2: scenario C — maxDailyPayouts=5, payoutsSentToday=5. -/
theorem airdrop_cap_aborts_batch_witness :
    (airdrop cappedLedgerDb defaultAirdropOpts smallCfg plainEnv).sent = 0 ∧
    (airdrop cappedLedgerDb defaultAirdropOpts smallCfg plainEnv).confirmed = 0 ∧
    (airdrop cappedLedgerDb defaultAirdropOpts smallCfg plainEnv).failed = 0 ∧
    (airdrop cappedLedgerDb defaultAirdropOpts smallCfg plainEnv).skipped = 0 ∧
    (airdrop cappedLedgerDb defaultAirdropOpts smallCfg plainEnv).transactions = [] ∧
    (airdrop cappedLedgerDb defaultAirdropOpts smallCfg plainEnv).calls = [] ∧
    (airdrop cappedLedgerDb defaultAirdropOpts smallCfg plainEnv).db.prospects
      = cappedLedgerDb.prospects ∧
    (airdrop cappedLedgerDb defaultAirdropOpts smallCfg plainEnv).db.activityLog
      = cappedLedgerDb.activityLog ∧
    dailyCounts (airdrop cappedLedgerDb defaultAirdropOpts smallCfg plainEnv).db
        ("2026-01-01")
      = dailyCounts cappedLedgerDb ("2026-01-01") :=
  have h := airdrop_cap_aborts_batch cappedLedgerDb defaultAirdropOpts smallCfg
    plainEnv (by decide)
  ⟨h.1, h.2.1, h.2.2.1, h.2.2.2.1, h.2.2.2.2.1, h.2.2.2.2.2.1,
    h.2.2.2.2.2.2.1, h.2.2.2.2.2.2.2.1, h.2.2.2.2.2.2.2.2 ("2026-01-01")⟩

/-- A prospect that already received its payout (status confirmed). -/
def paidProspect : Prospect :=
  { emptyRepoProspect with
      id := 7
      tier := some Tier.A
      stacksAddress := some ("SP2J6ZY48GV1EZ5V2V5RB9MP66SW86PYKKNRV9EJ7")
      addressValid := true
      airdropStatus := AirdropStatus.confirmed
      airdropTxid := some ("0xdead")
      airdropAmountSats := some 10000 }

/-- Store holding only the already-paid prospect, with a fresh ledger row. -/
def paidDb : Db :=
  { prospects := [paidProspect]
    dailyLimits := [{ date := "2026-01-01", prsOpened := 0, airdropsSent := 0 }]
    activityLog := [] }

/-- Options naming the already-paid prospect explicitly. -/
def paidOpts : AirdropOptions := { prospectId := some 7 }

/-- Witness for C1: re-running the Distributor against the confirmed prospect —
explicitly by id and in batch mode — broadcasts nothing, leaves the row
unchanged, counts it skipped, and excludes it from the pending candidates. -/
theorem airdrop_no_double_payout_witness :
    ExtCall.broadcast 7 ("SP2J6ZY48GV1EZ5V2V5RB9MP66SW86PYKKNRV9EJ7") 10000
      ∉ (airdrop paidDb paidOpts smallCfg plainEnv).calls ∧
    getProspectById (airdrop paidDb paidOpts smallCfg plainEnv).db 7
      = some paidProspect ∧
    (airdrop paidDb paidOpts smallCfg plainEnv).skipped = 1 ∧
    (airdrop paidDb paidOpts smallCfg plainEnv).transactions = [] ∧
    paidProspect ∉ airdropCandidates paidDb defaultAirdropOpts :=
  have h := airdrop_no_double_payout paidDb paidOpts smallCfg plainEnv
    paidProspect (by decide) (by decide) (by decide)
  have h4 := h.2.2.2 rfl (by decide) (by decide) (by decide)
  have hb := airdrop_no_double_payout paidDb defaultAirdropOpts smallCfg plainEnv
    paidProspect (by decide) (by decide) (by decide)
  ⟨h.1 ("SP2J6ZY48GV1EZ5V2V5RB9MP66SW86PYKKNRV9EJ7") 10000, h.2.1,
    h4.1, h4.2.2.2.2, hb.2.2.1 rfl⟩

lemma dailyCounts_of_dailyLimits_eq (db1 db2 : Db)
    (h : db1.dailyLimits = db2.dailyLimits) (d : String) :
    dailyCounts db1 d = dailyCounts db2 d := by
  unfold dailyCounts findDaily
  rw [h]

lemma airdropStep_tallies (cfg : Config) (env : AirdropEnv) (oa : Option Nat)
    (acc : AirdropResult) (p : Prospect) :
    ((airdropStep cfg env oa acc p).sent + (airdropStep cfg env oa acc p).failed
        + (airdropStep cfg env oa acc p).skipped
      = acc.sent + acc.failed + acc.skipped + 1) ∧
    ((airdropStep cfg env oa acc p).sent + (airdropStep cfg env oa acc p).failed
        + acc.transactions.length
      = acc.sent + acc.failed + (airdropStep cfg env oa acc p).transactions.length) ∧
    ((dailyCounts acc.db env.today).2 + (airdropStep cfg env oa acc p).sent
      = (dailyCounts (airdropStep cfg env oa acc p).db env.today).2 + acc.sent) := by
  unfold airdropStep
  by_cases h1 : (!jsStrOptTruthy p.stacksAddress || !p.addressValid) = true
  · rw [if_pos h1]
    exact ⟨by dsimp only; omega, rfl, rfl⟩
  · rw [if_neg h1]
    by_cases h2 : (p.airdropStatus != AirdropStatus.pending) = true
    · rw [if_pos h2]
      exact ⟨by dsimp only; omega, rfl, rfl⟩
    · rw [if_neg h2]
      by_cases h3 : env.treasuryBalance - ((determineAmount cfg oa p : Nat) : Int)
          < MIN_TREASURY_BALANCE
      · rw [if_pos h3]
        exact ⟨by dsimp only; omega, rfl, rfl⟩
      · rw [if_neg h3]
        rcases hpa : processAirdrop acc.db p (determineAmount cfg oa p) env with
          ⟨tx, db2, calls2⟩
        dsimp only
        have hdl : dailyCounts db2 env.today = dailyCounts acc.db env.today := by
          apply dailyCounts_of_dailyLimits_eq
          have hx := processAirdrop_dailyLimits acc.db p (determineAmount cfg oa p) env
          rw [hpa] at hx
          exact hx
        have hinc := (dailyCounts_incrementDailyAirdrops db2 env.today env.today)
        rw [if_pos rfl] at hinc
        by_cases hcf : (tx.status == AirdropStatus.confirmed) = true
        · rw [if_pos hcf]
          refine ⟨by dsimp only; omega, by dsimp only; simp only [List.length_append, List.length_cons, List.length_nil]; omega, ?_⟩
          show (dailyCounts acc.db env.today).2 + (acc.sent + 1)
            = (dailyCounts (incrementDailyAirdrops db2 env.today) env.today).2 + acc.sent
          rw [hinc]
          rw [hdl]
          dsimp only
          omega
        · rw [if_neg hcf]
          by_cases hsn : (tx.status == AirdropStatus.sent) = true
          · rw [if_pos hsn]
            refine ⟨by dsimp only; omega, by dsimp only; simp only [List.length_append, List.length_cons, List.length_nil]; omega, ?_⟩
            show (dailyCounts acc.db env.today).2 + (acc.sent + 1)
              = (dailyCounts (incrementDailyAirdrops db2 env.today) env.today).2 + acc.sent
            rw [hinc]
            rw [hdl]
            dsimp only
            omega
          · rw [if_neg hsn]
            refine ⟨by dsimp only; omega, by dsimp only; simp only [List.length_append, List.length_cons, List.length_nil]; omega, ?_⟩
            show (dailyCounts acc.db env.today).2 + acc.sent
              = (dailyCounts db2 env.today).2 + acc.sent
            rw [hdl]

lemma airdropFold_tallies (cfg : Config) (env : AirdropEnv) (oa : Option Nat) :
    ∀ (cs : List Prospect) (acc : AirdropResult),
      ((cs.foldl (airdropStep cfg env oa) acc).sent
          + (cs.foldl (airdropStep cfg env oa) acc).failed
          + (cs.foldl (airdropStep cfg env oa) acc).skipped
        = acc.sent + acc.failed + acc.skipped + cs.length) ∧
      ((cs.foldl (airdropStep cfg env oa) acc).sent
          + (cs.foldl (airdropStep cfg env oa) acc).failed
          + acc.transactions.length
        = acc.sent + acc.failed
          + (cs.foldl (airdropStep cfg env oa) acc).transactions.length) ∧
      ((dailyCounts acc.db env.today).2 + (cs.foldl (airdropStep cfg env oa) acc).sent
        = (dailyCounts (cs.foldl (airdropStep cfg env oa) acc).db env.today).2
          + acc.sent) := by
  intro cs
  induction cs with
  | nil => intro acc; exact ⟨by simp, rfl, rfl⟩
  | cons c t ih =>
    intro acc
    rw [List.foldl_cons]
    have hstep := airdropStep_tallies cfg env oa acc c
    have hrest := ih (airdropStep cfg env oa acc c)
    refine ⟨by rw [hrest.1]; rw [List.length_cons]; omega, ?_, ?_⟩
    · have h1 := hrest.2.1
      have h2 := hstep.2.1
      omega
    · have h1 := hrest.2.2
      have h2 := hstep.2.2
      omega

/-- C10: in a single sequential run starting with `n < maxDailyAirdrops`
payouts already counted today, the number of candidates processed
(skipped + transactions) is at most min(limit, maxDailyAirdrops − n), the
counter is bumped exactly once per `sent`/`confirmed` outcome and never for
`failed` (counter delta = sent tally, sent + failed = transactions), so the
counter ends — and, being monotone within the run, stays throughout — at most
maxDailyAirdrops: the cap is hard for a non-concurrent run. -/
theorem airdrop_cap_hard (db : Db) (opts : AirdropOptions) (cfg : Config)
    (env : AirdropEnv)
    (hcap : (dailyCounts db env.today).2 < cfg.maxDailyAirdrops) :
    (airdrop db opts cfg env).skipped
        + (airdrop db opts cfg env).transactions.length
      ≤ min opts.limit (cfg.maxDailyAirdrops - (dailyCounts db env.today).2) ∧
    (airdrop db opts cfg env).sent + (airdrop db opts cfg env).failed
      = (airdrop db opts cfg env).transactions.length ∧
    (dailyCounts (airdrop db opts cfg env).db env.today).2
      = (dailyCounts db env.today).2 + (airdrop db opts cfg env).sent ∧
    (dailyCounts (airdrop db opts cfg env).db env.today).2
      ≤ cfg.maxDailyAirdrops := by
  have hrow2 := (getDailyLimitsRow_counts db env.today).2
  have hcreate := (dailyLedger_monotone_independent db env.today env.today).1
  unfold airdrop
  rw [if_neg (by rw [hrow2]; omega)]
  by_cases hbal : env.treasuryBalance < MIN_TREASURY_BALANCE
  · rw [if_pos hbal]
    refine ⟨by simp, rfl, ?_, ?_⟩
    · show (dailyCounts (getDailyLimitsDb db env.today) env.today).2
        = (dailyCounts db env.today).2 + 0
      rw [hcreate]
      omega
    · show (dailyCounts (getDailyLimitsDb db env.today) env.today).2
        ≤ cfg.maxDailyAirdrops
      rw [hcreate]
      omega
  · rw [if_neg hbal]
    have hfold := airdropFold_tallies cfg env opts.amount
      ((airdropCandidates (getDailyLimitsDb db env.today) opts).take
        (min opts.limit
          (cfg.maxDailyAirdrops - (getDailyLimitsRow db env.today).airdropsSent)))
      { sent := 0, confirmed := 0, failed := 0, skipped := 0, transactions := [],
        db := getDailyLimitsDb db env.today,
        calls := [ExtCall.walletAddress, ExtCall.balanceFetch env.treasuryAddress] }
    have hlen : ((airdropCandidates (getDailyLimitsDb db env.today) opts).take
        (min opts.limit
          (cfg.maxDailyAirdrops - (getDailyLimitsRow db env.today).airdropsSent))).length
        ≤ min opts.limit
          (cfg.maxDailyAirdrops - (dailyCounts db env.today).2) := by
      rw [List.length_take, hrow2]
      exact min_le_left _ _
    have h1 : (((airdropCandidates (getDailyLimitsDb db env.today) opts).take
          (min opts.limit
            (cfg.maxDailyAirdrops
              - (getDailyLimitsRow db env.today).airdropsSent))).foldl
          (airdropStep cfg env opts.amount)
          { sent := 0, confirmed := 0, failed := 0, skipped := 0, transactions := [],
            db := getDailyLimitsDb db env.today,
            calls := [ExtCall.walletAddress,
              ExtCall.balanceFetch env.treasuryAddress] }).sent
        + (((airdropCandidates (getDailyLimitsDb db env.today) opts).take
          (min opts.limit
            (cfg.maxDailyAirdrops
              - (getDailyLimitsRow db env.today).airdropsSent))).foldl
          (airdropStep cfg env opts.amount)
          { sent := 0, confirmed := 0, failed := 0, skipped := 0, transactions := [],
            db := getDailyLimitsDb db env.today,
            calls := [ExtCall.walletAddress,
              ExtCall.balanceFetch env.treasuryAddress] }).failed
        + (((airdropCandidates (getDailyLimitsDb db env.today) opts).take
          (min opts.limit
            (cfg.maxDailyAirdrops
              - (getDailyLimitsRow db env.today).airdropsSent))).foldl
          (airdropStep cfg env opts.amount)
          { sent := 0, confirmed := 0, failed := 0, skipped := 0, transactions := [],
            db := getDailyLimitsDb db env.today,
            calls := [ExtCall.walletAddress,
              ExtCall.balanceFetch env.treasuryAddress] }).skipped
      = 0 + 0 + 0 + ((airdropCandidates (getDailyLimitsDb db env.today) opts).take
          (min opts.limit
            (cfg.maxDailyAirdrops
              - (getDailyLimitsRow db env.today).airdropsSent))).length := hfold.1
    have h2 : (((airdropCandidates (getDailyLimitsDb db env.today) opts).take
          (min opts.limit
            (cfg.maxDailyAirdrops
              - (getDailyLimitsRow db env.today).airdropsSent))).foldl
          (airdropStep cfg env opts.amount)
          { sent := 0, confirmed := 0, failed := 0, skipped := 0, transactions := [],
            db := getDailyLimitsDb db env.today,
            calls := [ExtCall.walletAddress,
              ExtCall.balanceFetch env.treasuryAddress] }).sent
        + (((airdropCandidates (getDailyLimitsDb db env.today) opts).take
          (min opts.limit
            (cfg.maxDailyAirdrops
              - (getDailyLimitsRow db env.today).airdropsSent))).foldl
          (airdropStep cfg env opts.amount)
          { sent := 0, confirmed := 0, failed := 0, skipped := 0, transactions := [],
            db := getDailyLimitsDb db env.today,
            calls := [ExtCall.walletAddress,
              ExtCall.balanceFetch env.treasuryAddress] }).failed
        + 0
      = 0 + 0 + (((airdropCandidates (getDailyLimitsDb db env.today) opts).take
          (min opts.limit
            (cfg.maxDailyAirdrops
              - (getDailyLimitsRow db env.today).airdropsSent))).foldl
          (airdropStep cfg env opts.amount)
          { sent := 0, confirmed := 0, failed := 0, skipped := 0, transactions := [],
            db := getDailyLimitsDb db env.today,
            calls := [ExtCall.walletAddress,
              ExtCall.balanceFetch env.treasuryAddress] }).transactions.length :=
      hfold.2.1
    have h3 : (dailyCounts (getDailyLimitsDb db env.today) env.today).2
        + (((airdropCandidates (getDailyLimitsDb db env.today) opts).take
          (min opts.limit
            (cfg.maxDailyAirdrops
              - (getDailyLimitsRow db env.today).airdropsSent))).foldl
          (airdropStep cfg env opts.amount)
          { sent := 0, confirmed := 0, failed := 0, skipped := 0, transactions := [],
            db := getDailyLimitsDb db env.today,
            calls := [ExtCall.walletAddress,
              ExtCall.balanceFetch env.treasuryAddress] }).sent
      = (dailyCounts (((airdropCandidates (getDailyLimitsDb db env.today) opts).take
          (min opts.limit
            (cfg.maxDailyAirdrops
              - (getDailyLimitsRow db env.today).airdropsSent))).foldl
          (airdropStep cfg env opts.amount)
          { sent := 0, confirmed := 0, failed := 0, skipped := 0, transactions := [],
            db := getDailyLimitsDb db env.today,
            calls := [ExtCall.walletAddress,
              ExtCall.balanceFetch env.treasuryAddress] }).db env.today).2
        + 0 := hfold.2.2
    rw [hcreate] at h3
    clear hfold
    refine ⟨by omega, by omega, by omega, by omega⟩

/-- A verified prospect with a pending payout. -/
def duePendingProspect : Prospect :=
  { emptyRepoProspect with
      id := 3
      tier := some Tier.B
      stacksAddress := some ("SP2J6ZY48GV1EZ5V2V5RB9MP66SW86PYKKNRV9EJ7")
      addressValid := true
      airdropStatus := AirdropStatus.pending }

/-- Store with the due prospect and 4 of 5 payouts already counted today. -/
def nearCapDb : Db :=
  { prospects := [duePendingProspect]
    dailyLimits := [{ date := "2026-01-01", prsOpened := 0, airdropsSent := 4 }]
    activityLog := [] }

/-- Environment whose broadcast succeeds and confirms. -/
def okEnv : AirdropEnv :=
  { today := "2026-01-01"
    now := 0
    treasuryAddress := "SPTREASURY"
    treasuryBalance := 1000000
    broadcast := fun _ => BroadcastOutcome.ok ("0xfeed") true (some 100) }

/-- Witness for C10 at a concrete near-cap run. -/
theorem airdrop_cap_hard_witness :
    (airdrop nearCapDb defaultAirdropOpts smallCfg okEnv).skipped
        + (airdrop nearCapDb defaultAirdropOpts smallCfg okEnv).transactions.length
      ≤ min defaultAirdropOpts.limit
          (smallCfg.maxDailyAirdrops - (dailyCounts nearCapDb okEnv.today).2) ∧
    (airdrop nearCapDb defaultAirdropOpts smallCfg okEnv).sent
        + (airdrop nearCapDb defaultAirdropOpts smallCfg okEnv).failed
      = (airdrop nearCapDb defaultAirdropOpts smallCfg okEnv).transactions.length ∧
    (dailyCounts (airdrop nearCapDb defaultAirdropOpts smallCfg okEnv).db
        okEnv.today).2
      = (dailyCounts nearCapDb okEnv.today).2
        + (airdrop nearCapDb defaultAirdropOpts smallCfg okEnv).sent ∧
    (dailyCounts (airdrop nearCapDb defaultAirdropOpts smallCfg okEnv).db
        okEnv.today).2
      ≤ smallCfg.maxDailyAirdrops :=
  airdrop_cap_hard nearCapDb defaultAirdropOpts smallCfg okEnv (by decide)

/-! ### Outreach Engine (src/outreach.ts) -/

/-- src/types.ts `OutreachOptions` with the defaults destructured in
outreach(). -/
structure OutreachOptions where
  tier : Option Tier := none
  limit : Nat := 10
  dryRun : Bool := false
  prospectId : Option Nat := none

/-- The `OutreachRecord.status` strings. -/
inductive ORStatus
  | pending
  | delivered
  | failed
  | rate_limited
deriving DecidableEq, Repr

/-- src/types.ts `OutreachRecord` (timestamps as `Int`). -/
structure OutreachRecord where
  prospectId : Nat
  githubUsername : String
  targetRepo : String
  prUrl : Option String
  prNumber : Option Nat
  status : ORStatus
  personalizationUsed : List String
  templateVersion : String
  createdAt : Int
  deliveredAt : Option Int
  errorMessage : Option String
deriving DecidableEq, Repr

/-- External-world inputs of one outreach run: clock, `gh auth` state, and per
prospect the PR the fork/branch/file/PR sequence produces — `none` models any
of those remote calls throwing (the catch block records a failure). -/
structure OutreachEnv where
  today : String
  now : Int
  authOk : Bool
  prResult : Nat → Option (String × Nat)

/-- src/db.ts updateProspectOutreach: status always written, the other columns
via `COALESCE(new, old)` (also bumps `updated_at`). -/
structure OutreachUpdate where
  outreachStatus : OutreachStatus
  targetRepo : Option String := none
  prUrl : Option String := none
  prNumber : Option Nat := none
  prOpenedAt : Option Int := none

/-- Apply an `OutreachUpdate` row mutation. -/
def updateProspectOutreach (db : Db) (id : Nat) (u : OutreachUpdate) (now : Int) :
    Db :=
  { db with
      prospects := updById db.prospects id fun q =>
        { q with
            outreachStatus := u.outreachStatus
            targetRepo := u.targetRepo.or q.targetRepo
            prUrl := u.prUrl.or q.prUrl
            prNumber := u.prNumber.or q.prNumber
            prOpenedAt := u.prOpenedAt.or q.prOpenedAt
            updatedAt := now } }

/-- src/outreach.ts sendOutreach: pick a target repo (failing without one),
qualify for personalization hooks, stop there on a dry run, then fork, branch,
commit and open the PR (collapsed into `env.prResult`); on success persist
`pr_opened`, bump the daily PR counter, and log. -/
def sendOutreach (db : Db) (p : Prospect) (dryRun : Bool) (env : OutreachEnv) :
    OutreachRecord × Db :=
  match selectTargetRepo p with
  | none =>
    ({ prospectId := p.id, githubUsername := p.githubUsername, targetRepo := "",
       prUrl := none, prNumber := none, status := ORStatus.failed,
       personalizationUsed := [], templateVersion := "v2.0",
       createdAt := env.now, deliveredAt := none,
       errorMessage := some ("No suitable repository found") }, db)
  | some target =>
    if dryRun then
      ({ prospectId := p.id, githubUsername := p.githubUsername,
         targetRepo := target.owner ++ ("/") ++ target.repo,
         prUrl := none, prNumber := none, status := ORStatus.pending,
         personalizationUsed := (qualifyProspect env.now p).personalizationHooks,
         templateVersion := "v2.0", createdAt := env.now, deliveredAt := none,
         errorMessage := none }, db)
    else
      match env.prResult p.id with
      | some (url, num) =>
        ({ prospectId := p.id, githubUsername := p.githubUsername,
           targetRepo := target.owner ++ ("/") ++ target.repo,
           prUrl := some url, prNumber := some num, status := ORStatus.delivered,
           personalizationUsed := (qualifyProspect env.now p).personalizationHooks,
           templateVersion := "v2.0", createdAt := env.now,
           deliveredAt := some env.now, errorMessage := none },
         logActivity
           (incrementDailyPRs
             (updateProspectOutreach db p.id
               { outreachStatus := OutreachStatus.pr_opened
                 targetRepo := some (target.owner ++ ("/") ++ target.repo)
                 prUrl := some url
                 prNumber := some num
                 prOpenedAt := some env.now } env.now)
             env.today)
           ("outreach:pr_created") (some p.id))
      | none =>
        ({ prospectId := p.id, githubUsername := p.githubUsername,
           targetRepo := target.owner ++ ("/") ++ target.repo,
           prUrl := none, prNumber := none, status := ORStatus.failed,
           personalizationUsed := (qualifyProspect env.now p).personalizationHooks,
           templateVersion := "v2.0", createdAt := env.now, deliveredAt := none,
           errorMessage := some ("remote call failed") },
         logActivity db ("outreach:failed") (some p.id))

/-- Result of one outreach run. -/
structure OutreachResult where
  sent : Nat
  failed : Nat
  skipped : Nat
  records : List OutreachRecord
  db : Db
deriving DecidableEq, Repr

/-- One iteration of the outreach loop (src/outreach.ts lines 301-323): skip
non-pending prospects, deliver to the rest and tally. -/
def outreachStep (env : OutreachEnv) (dryRun : Bool) (acc : OutreachResult)
    (p : Prospect) : OutreachResult :=
  if p.outreachStatus != OutreachStatus.pending then
    { acc with skipped := acc.skipped + 1 }
  else
    match sendOutreach acc.db p dryRun env with
    | (record, db2) =>
      if record.status == ORStatus.delivered then
        { acc with
            sent := acc.sent + 1
            records := acc.records ++ [record]
            db := db2 }
      else if record.status == ORStatus.failed then
        { acc with
            failed := acc.failed + 1
            records := acc.records ++ [record]
            db := db2 }
      else
        { acc with records := acc.records ++ [record], db := db2 }

/-- Candidate selection of src/outreach.ts (lines 276-291): named prospect or
pending prospects (optionally one tier, LIMIT = effective limit), then the
qualified-tier filter dropping tier-D and untiered prospects. -/
def outreachCandidates (db : Db) (opts : OutreachOptions) (effectiveLimit : Nat) :
    List Prospect :=
  (match opts.prospectId with
    | some id => (getProspectById db id).toList
    | none =>
      getProspects db
        { tier := opts.tier, outreachStatus := some OutreachStatus.pending,
          limit := some effectiveLimit }).filter
    fun p => p.tier.isSome && p.tier != some Tier.D

/-- src/outreach.ts outreach(): auth check (throws), daily-PR-cap abort for
non-dry runs, effective limit, then the per-candidate loop. -/
def outreach (db : Db) (opts : OutreachOptions) (cfg : Config)
    (env : OutreachEnv) : Except String OutreachResult :=
  if !opts.dryRun && !env.authOk then
    Except.error ("GitHub CLI not authenticated. Run: gh auth login")
  else if !opts.dryRun
      && cfg.maxDailyPRs ≤ (getDailyLimitsRow db env.today).prsOpened then
    Except.ok
      { sent := 0
        failed := 0
        skipped := 0
        records := []
        db := getDailyLimitsDb db env.today }
  else
    Except.ok
      ((outreachCandidates (getDailyLimitsDb db env.today) opts
          (if opts.dryRun then opts.limit
           else min opts.limit
             (cfg.maxDailyPRs - (getDailyLimitsRow db env.today).prsOpened))).foldl
        (outreachStep env opts.dryRun)
        { sent := 0, failed := 0, skipped := 0, records := [],
          db := getDailyLimitsDb db env.today })

/-- Tier is one of the contactable buckets A, B, C. -/
def abcTier (t : Option Tier) : Prop :=
  t = some Tier.A ∨ t = some Tier.B ∨ t = some Tier.C

lemma incrementDailyPRs_prospects (db : Db) (d : String) :
    (incrementDailyPRs db d).prospects = db.prospects := by
  unfold incrementDailyPRs bumpPRs
  dsimp only
  exact getDailyLimitsDb_prospects db d

lemma getProspects_subset (db : Db) (f : ProspectFilters) :
    ∀ p ∈ getProspects db f, p ∈ db.prospects := by
  intro p hp
  unfold getProspects at hp
  dsimp only at hp
  cases hl : f.limit with
  | none =>
    rw [hl] at hp
    exact (List.mem_filter.mp hp).1
  | some n =>
    rw [hl] at hp
    dsimp only at hp
    by_cases hn : (n == 0) = true
    · rw [if_pos hn] at hp
      exact (List.mem_filter.mp hp).1
    · rw [if_neg hn] at hp
      exact (List.mem_filter.mp (List.take_subset _ _ hp)).1

lemma outreachCandidates_sub (db : Db) (opts : OutreachOptions) (eff : Nat) :
    ∀ p ∈ outreachCandidates db opts eff, p ∈ db.prospects ∧ abcTier p.tier := by
  intro p hp
  unfold outreachCandidates at hp
  have hmemf := (List.mem_filter.mp hp).1
  have hpred := (List.mem_filter.mp hp).2
  constructor
  · cases hpid : opts.prospectId with
    | some j =>
      rw [hpid] at hmemf
      dsimp only at hmemf
      cases hfj : getProspectById db j with
      | none =>
        rw [hfj] at hmemf
        cases hmemf
      | some q =>
        rw [hfj] at hmemf
        have hpq : p = q := by simpa using hmemf
        rw [hpq]
        exact List.mem_of_find?_eq_some hfj
    | none =>
      rw [hpid] at hmemf
      dsimp only at hmemf
      exact getProspects_subset db _ p hmemf
  · simp only [Bool.and_eq_true, bne_iff_ne, ne_eq] at hpred
    obtain ⟨hsome, hnd⟩ := hpred
    unfold abcTier
    cases ht : p.tier with
    | none =>
      rw [ht] at hsome
      cases hsome
    | some t =>
      cases t with
      | A => exact Or.inl rfl
      | B => exact Or.inr (Or.inl rfl)
      | C => exact Or.inr (Or.inr rfl)
      | D => exact absurd ht hnd

lemma mem_updById (l : List Prospect) (k : Nat) (g : Prospect → Prospect) :
    ∀ x ∈ updById l k g, ∃ y ∈ l, x = (if y.id == k then g y else y) := by
  intro x hx
  obtain ⟨y, hy, hxy⟩ := List.mem_map.mp hx
  exact ⟨y, hy, hxy.symm⟩

lemma sendOutreach_prospects (db : Db) (p : Prospect) (dryRun : Bool)
    (env : OutreachEnv) :
    (sendOutreach db p dryRun env).2.prospects = db.prospects ∨
    ∃ g : Prospect → Prospect,
      (∀ q, (g q).id = q.id ∧ (g q).tier = q.tier ∧
        (g q).outreachStatus = OutreachStatus.pr_opened) ∧
      (sendOutreach db p dryRun env).2.prospects = updById db.prospects p.id g := by
  unfold sendOutreach
  cases selectTargetRepo p with
  | none => exact Or.inl rfl
  | some target =>
    dsimp only
    by_cases hd : dryRun = true
    · rw [if_pos hd]
      exact Or.inl rfl
    · rw [if_neg hd]
      cases env.prResult p.id with
      | none => exact Or.inl rfl
      | some pr =>
        obtain ⟨url, num⟩ := pr
        dsimp only
        refine Or.inr ⟨fun q =>
          { q with
              outreachStatus := OutreachStatus.pr_opened
              targetRepo := (some (target.owner ++ ("/") ++ target.repo)).or q.targetRepo
              prUrl := (some url).or q.prUrl
              prNumber := (some num).or q.prNumber
              prOpenedAt := (some env.now).or q.prOpenedAt
              updatedAt := env.now },
          fun q => ⟨rfl, rfl, rfl⟩, ?_⟩
        show (logActivity (incrementDailyPRs (updateProspectOutreach db p.id _ env.now)
          env.today) _ _).prospects = _
        rw [show ∀ d : Db, ∀ a pid, (logActivity d a pid).prospects = d.prospects
          from fun _ _ _ => rfl]
        rw [incrementDailyPRs_prospects]
        rfl

lemma outreachFold_inv (env : OutreachEnv) (dryRun : Bool) (base : List Prospect)
    (hids : (base.map Prospect.id).Nodup) :
    ∀ (cs : List Prospect) (acc : OutreachResult),
      (∀ c ∈ cs, c ∈ base ∧ abcTier c.tier) →
      (∀ x ∈ acc.db.prospects, ∃ x0, x0 ∈ base ∧ x0.id = x.id ∧ x0.tier = x.tier ∧
        (x.outreachStatus = OutreachStatus.pr_opened →
          x0.outreachStatus = OutreachStatus.pr_opened ∨ abcTier x.tier)) →
      ∀ x ∈ (cs.foldl (outreachStep env dryRun) acc).db.prospects,
        ∃ x0, x0 ∈ base ∧ x0.id = x.id ∧ x0.tier = x.tier ∧
          (x.outreachStatus = OutreachStatus.pr_opened →
            x0.outreachStatus = OutreachStatus.pr_opened ∨ abcTier x.tier) := by
  intro cs
  induction cs with
  | nil =>
    intro acc _ hinv
    exact hinv
  | cons c t ih =>
    intro acc hc hinv
    rw [List.foldl_cons]
    apply ih (outreachStep env dryRun acc c)
      (fun z hz => hc z (List.mem_cons_of_mem _ hz))
    intro x hx
    unfold outreachStep at hx
    by_cases hst : (c.outreachStatus != OutreachStatus.pending) = true
    · rw [if_pos hst] at hx
      exact hinv x hx
    · rw [if_neg hst] at hx
      rcases hso : sendOutreach acc.db c dryRun env with ⟨record, db2⟩
      rw [hso] at hx
      dsimp only at hx
      have hx2 : x ∈ db2.prospects := by
        by_cases h1 : (record.status == ORStatus.delivered) = true
        · rw [if_pos h1] at hx
          exact hx
        · rw [if_neg h1] at hx
          by_cases h2 : (record.status == ORStatus.failed) = true
          · rw [if_pos h2] at hx
            exact hx
          · rw [if_neg h2] at hx
            exact hx
      have hsp := sendOutreach_prospects acc.db c dryRun env
      rw [hso] at hsp
      dsimp only at hsp
      rcases hsp with heq | ⟨g, hg, heq⟩
      · rw [heq] at hx2
        exact hinv x hx2
      · rw [heq] at hx2
        obtain ⟨y, hy, hxy⟩ := mem_updById _ _ _ x hx2
        by_cases hid : (y.id == c.id) = true
        · rw [if_pos hid] at hxy
          obtain ⟨x0, hx0b, hx0id, hx0tier, _⟩ := hinv y hy
          have hcb := hc c (List.mem_cons_self _ _)
          have hyc : x0 = c := by
            apply List.inj_on_of_nodup_map hids hx0b hcb.1
            rw [hx0id]
            exact beq_iff_eq.mp hid
          refine ⟨x0, hx0b, ?_, ?_, ?_⟩
          · rw [hxy, (hg y).1]
            exact hx0id
          · rw [hxy, (hg y).2.1]
            exact hx0tier
          · intro _
            right
            rw [hxy, (hg y).2.1, ← hx0tier, hyc]
            exact hcb.2
        · rw [if_neg hid] at hxy
          rw [hxy]
          exact hinv y hy

/-- C6: the Outreach Engine never attempts delivery to a tier-D or untiered
prospect.  Every member of the candidate list the loop iterates (hence every
prospect `sendOutreach` could be invoked on, a PR opened for, or marked
`pr_opened`) has tier A, B or C; and any prospect whose row shows `pr_opened`
after a successful run either was `pr_opened` before it or has tier ∈
{A,B,C} (tier untouched by the run). -/
theorem outreach_never_contacts_tier_D (db : Db) (opts : OutreachOptions)
    (cfg : Config) (env : OutreachEnv) (r : OutreachResult)
    (hids : (db.prospects.map Prospect.id).Nodup)
    (hok : outreach db opts cfg env = Except.ok r) :
    (∀ (db2 : Db) (eff : Nat), ∀ p ∈ outreachCandidates db2 opts eff,
      abcTier p.tier) ∧
    (∀ q ∈ r.db.prospects, q.outreachStatus = OutreachStatus.pr_opened →
      ∃ q0, q0 ∈ db.prospects ∧ q0.id = q.id ∧ q0.tier = q.tier ∧
        (q0.outreachStatus = OutreachStatus.pr_opened ∨ abcTier q.tier)) := by
  constructor
  · intro db2 eff p hp
    exact (outreachCandidates_sub db2 opts eff p hp).2
  · unfold outreach at hok
    by_cases hauth : (!opts.dryRun && !env.authOk) = true
    · rw [if_pos hauth] at hok
      exact Except.noConfusion hok
    · rw [if_neg hauth] at hok
      by_cases hcap : (!opts.dryRun
          && decide (cfg.maxDailyPRs ≤ (getDailyLimitsRow db env.today).prsOpened))
          = true
      · rw [if_pos hcap] at hok
        injection hok with h
        subst h
        intro q hq hqopen
        have hq2 : q ∈ (getDailyLimitsDb db env.today).prospects := hq
        rw [getDailyLimitsDb_prospects] at hq2
        exact ⟨q, hq2, rfl, rfl, Or.inl hqopen⟩
      · rw [if_neg hcap] at hok
        injection hok with h
        subst h
        intro q hq hqopen
        have hbase : ∀ c ∈ outreachCandidates (getDailyLimitsDb db env.today) opts
            (if opts.dryRun then opts.limit
             else min opts.limit
               (cfg.maxDailyPRs - (getDailyLimitsRow db env.today).prsOpened)),
            c ∈ db.prospects ∧ abcTier c.tier := by
          intro c hcm
          have hx := outreachCandidates_sub _ opts _ c hcm
          rw [getDailyLimitsDb_prospects] at hx
          exact hx
        have hinv0 : ∀ x ∈ (getDailyLimitsDb db env.today).prospects,
            ∃ x0, x0 ∈ db.prospects ∧ x0.id = x.id ∧ x0.tier = x.tier ∧
              (x.outreachStatus = OutreachStatus.pr_opened →
                x0.outreachStatus = OutreachStatus.pr_opened ∨ abcTier x.tier) := by
          intro x hx
          have hx2 : x ∈ (getDailyLimitsDb db env.today).prospects := hx
          rw [getDailyLimitsDb_prospects] at hx2
          exact ⟨x, hx2, rfl, rfl, fun ho => Or.inl ho⟩
        obtain ⟨q0, hb, hid, htier, himp⟩ :=
          outreachFold_inv env opts.dryRun db.prospects hids _ _ hbase hinv0 q hq
        exact ⟨q0, hb, hid, htier, himp hqopen⟩

/-- A tier-B prospect awaiting outreach. -/
def contactableProspect : Prospect :=
  { emptyRepoProspect with id := 1, tier := some Tier.B }

/-- A tier-D prospect whose PR was already opened before the run. -/
def openedDProspect : Prospect :=
  { emptyRepoProspect with
      id := 9
      tier := some Tier.D
      outreachStatus := OutreachStatus.pr_opened }

/-- Store for the outreach witness run, ledger row present. -/
def outreachDbW : Db :=
  { prospects := [contactableProspect, openedDProspect]
    dailyLimits := [{ date := "2026-01-01", prsOpened := 0, airdropsSent := 0 }]
    activityLog := [] }

/-- Default outreach options. -/
def outreachOptsW : OutreachOptions := {}

/-- Environment in which fork/branch/PR calls fail (delivery attempts record a
failure). -/
def outreachEnvW : OutreachEnv :=
  { today := "2026-01-01"
    now := 0
    authOk := true
    prResult := fun _ => none }

/-- The result of the concrete outreach run. -/
def outreachRunResult : OutreachResult :=
  match outreach outreachDbW outreachOptsW smallCfg outreachEnvW with
  | Except.ok r => r
  | Except.error _ =>
    { sent := 0, failed := 0, skipped := 0, records := [], db := outreachDbW }

/-- Witness for C6 at a concrete run: the candidate iterated has tier B, and
the only `pr_opened` row afterwards was already `pr_opened` beforehand. -/
theorem outreach_never_contacts_tier_D_witness :
    abcTier contactableProspect.tier ∧
    (∃ q0, q0 ∈ outreachDbW.prospects ∧ q0.id = openedDProspect.id ∧
      q0.tier = openedDProspect.tier ∧
      (q0.outreachStatus = OutreachStatus.pr_opened ∨
        abcTier openedDProspect.tier)) :=
  have h := outreach_never_contacts_tier_D outreachDbW outreachOptsW smallCfg
    outreachEnvW outreachRunResult (by decide) rfl
  ⟨h.1 outreachDbW 10 contactableProspect (by decide),
   h.2 openedDProspect (by decide) (by decide)⟩

end Appleseed
